import Mathlib

/-!
# Entity storage of `game/components.go`

A shallow embedding of the entity-component store of package `game`
(`src/game/components.go`) and a verification of its iterator contract.

Modelling conventions.

* Go `int` (`count`, `i`, `j`) is `Int`; none of the arithmetic of the file can
  overflow 64 bits on a store that fits in memory.  `uint8`, `uint16` are `Nat`.
* `float32` values are only stored, copied and defaulted by the store; they are
  taken in exact arithmetic (`ℚ`).
* A Go slice is a `List`; indexing outside the slice is the run-time fault
  `Fault.indexOutOfRange`.  Every operation that can fault returns `Except Fault`.
* The store is passed explicitly: where the Go code holds `iter.e *Entities`,
  the operations take the store and return the new one.
* The columns of a bag live in `comps` (the slice of `Comp` interface values);
  the typed fields `Pos`, `Sprite`, ... are pointers to those same columns and
  are modelled as positions in `comps`.
* The loops of `Iter.Next` are run on a fuel counter that `Iter.Next` itself
  sets from the number of bags; `Next_never_outOfFuel` shows it is never used up.
-/

namespace game

/-! ## Faults -/

/-- Run-time faults of the Go program, and the fuel sentinel of the loop model. -/
inductive Fault where
  /-- Index out of range on a slice or array. -/
  | indexOutOfRange
  /-- Typed column pointer that does not address a column of its type
  (excluded by the Go type system; never produced by `newEntityBag`). -/
  | invalidPointer
  /-- Loop model ran out of fuel (not a Go behaviour). -/
  | outOfFuel
  deriving DecidableEq, Repr

deriving instance DecidableEq for Except

/-- Slice indexing `c[i]` with a Go `int` index. -/
def idx? {α : Type} (c : List α) (i : Int) : Option α :=
  if 0 ≤ i then c.get? i.toNat else none

/-- Slice element assignment `c[i] = v` (in range). -/
def setIdx {α : Type} (c : List α) (i : Int) (v : α) : List α :=
  c.set i.toNat v

/-! ## Component types -/

/-- Go `float32`, in exact arithmetic. -/
abbrev float32 := ℚ

/-- Go `type Sprite uint16`. -/
abbrev Sprite := Nat

def SpriteUnset : Sprite := 0
def SpriteShip : Sprite := 1
def SpirteMissile : Sprite := 2

/-- Go `type vec2 [2]float32`. -/
structure vec2 where
  c0 : float32
  c1 : float32
  deriving DecidableEq, Repr

/-- The zero value `vec2{}`. -/
def vec2.zero : vec2 := ⟨0, 0⟩

def vec2.Scale (v : vec2) (s : float32) : vec2 := ⟨v.c0 * s, v.c1 * s⟩

def vec2.Add (v o : vec2) : vec2 := ⟨v.c0 + o.c0, v.c1 * o.c1⟩

/-- The receiver after `v.AddEqual(o)`. -/
def vec2.AddEqual (v o : vec2) : vec2 := ⟨v.c0 + o.c0, v.c1 + o.c1⟩

/-! ## Comp definitions -/

/-- Body shared by the three `Swap` methods: `c[i], c[j] = c[j], c[i]`. -/
def sliceSwap {α : Type} (c : List α) (i j : Int) : Except Fault (List α) :=
  match idx? c i, idx? c j with
  | some a, some b => .ok (setIdx (setIdx c i b) j a)
  | _, _ => .error .indexOutOfRange

/-- Body shared by the three `RemoveLast` methods: `c = c[:len(c)-1]`. -/
def sliceRemoveLast {α : Type} (c : List α) : Except Fault (List α) :=
  if c.length = 0 then .error .indexOutOfRange else .ok c.dropLast

abbrev Vec2Comp := List vec2
abbrev SpriteComp := List Sprite
abbrev FloatComp := List float32

def Vec2Comp.Swap (c : Vec2Comp) (i j : Int) : Except Fault Vec2Comp := sliceSwap c i j
def Vec2Comp.Extend (c : Vec2Comp) : Vec2Comp := c ++ [vec2.zero]
def Vec2Comp.RemoveLast (c : Vec2Comp) : Except Fault Vec2Comp := sliceRemoveLast c

def SpriteComp.Swap (c : SpriteComp) (i j : Int) : Except Fault SpriteComp := sliceSwap c i j
def SpriteComp.Extend (c : SpriteComp) : SpriteComp := c ++ [SpriteUnset]
def SpriteComp.RemoveLast (c : SpriteComp) : Except Fault SpriteComp := sliceRemoveLast c

def FloatComp.Swap (c : FloatComp) (i j : Int) : Except Fault FloatComp := sliceSwap c i j
def FloatComp.Extend (c : FloatComp) : FloatComp := c ++ [0]
def FloatComp.RemoveLast (c : FloatComp) : Except Fault FloatComp := sliceRemoveLast c

/-- Go `type Comp interface`: a column of one of the three implementing types. -/
inductive Comp where
  | vec2s (c : Vec2Comp)
  | sprites (c : SpriteComp)
  | floats (c : FloatComp)
  deriving DecidableEq, Repr

/-- Interface method `Swap`. -/
def Comp.Swap : Comp → Int → Int → Except Fault Comp
  | .vec2s c, i, j => (Vec2Comp.Swap c i j).map Comp.vec2s
  | .sprites c, i, j => (SpriteComp.Swap c i j).map Comp.sprites
  | .floats c, i, j => (FloatComp.Swap c i j).map Comp.floats

/-- Interface method `Extend`. -/
def Comp.Extend : Comp → Comp
  | .vec2s c => .vec2s (Vec2Comp.Extend c)
  | .sprites c => .sprites (SpriteComp.Extend c)
  | .floats c => .floats (FloatComp.Extend c)

/-- Interface method `RemoveLast`. -/
def Comp.RemoveLast : Comp → Except Fault Comp
  | .vec2s c => (Vec2Comp.RemoveLast c).map Comp.vec2s
  | .sprites c => (SpriteComp.RemoveLast c).map Comp.sprites
  | .floats c => (FloatComp.RemoveLast c).map Comp.floats

/-- Length `len(*c)` of a column. -/
def Comp.len : Comp → Nat
  | .vec2s c => c.length
  | .sprites c => c.length
  | .floats c => c.length

/-- Value of one component of one entity. -/
inductive Value where
  | vec2 (v : game.vec2)
  | sprite (s : Sprite)
  | float (f : float32)
  deriving DecidableEq, Repr

/-- Element `(*c)[j]` of a column, if in range. -/
def Comp.at? : Comp → Int → Option Value
  | .vec2s c, j => (idx? c j).map Value.vec2
  | .sprites c, j => (idx? c j).map Value.sprite
  | .floats c, j => (idx? c j).map Value.float

/-! ## Keys and signatures -/

/-- Go `type CompKey uint16`. -/
abbrev CompKey := Nat

def PosKey : CompKey := 0
def SpriteKey : CompKey := 1
def RotKey : CompKey := 2
def TimedDestroyKey : CompKey := 3
def MomentumKey : CompKey := 4
def SpinKey : CompKey := 5
def FrameEndDeleteKey : CompKey := 6
def PlayerControlledShipKey : CompKey := 7
def KeepInCameraKey : CompKey := 8
def doNotMoveOrUseLastKeyForNumberOfKeys : CompKey := 9

def compsKeyUnitSize : Nat := 8

/-- Length of the array type `compsKey`. -/
def compsKeyLen : Nat := doNotMoveOrUseLastKeyForNumberOfKeys / compsKeyUnitSize + 1

/-- Go `type compsKey [doNotMoveOrUseLastKeyForNumberOfKeys/compsKeyUnitSize + 1]uint8`:
an array of `compsKeyLen` bytes. -/
structure compsKey where
  units : List Nat
  size_eq : units.length = compsKeyLen
  unit_lt : ∀ u ∈ units, u < 256
  deriving DecidableEq

/-- The zero value of `compsKey`. -/
def compsKey.zero : compsKey :=
  ⟨List.replicate compsKeyLen 0, by simp, by
    intro u hu
    rw [List.eq_of_mem_replicate hu]
    decide⟩

def inRequirement (compsKey : compsKey) (compKey : CompKey) : Except Fault Bool :=
  match compsKey.units.get? (compKey / compsKeyUnitSize) with
  | none => .error .indexOutOfRange
  | some u => .ok (decide (0 < u &&& (1 <<< (compKey % compsKeyUnitSize))))

/-- Array element assignment `key[w] = u` on a `compsKey` (`u` truncated to `uint8`). -/
def compsKey.setUnit (key : compsKey) (w : Nat) (u : Nat) : compsKey :=
  ⟨key.units.set w (u % 256), by rw [List.length_set]; exact key.size_eq, by
    intro x hx
    rcases List.mem_or_eq_of_mem_set hx with h | h
    · exact key.unit_lt x h
    · rw [h]; exact Nat.mod_lt _ (by decide)⟩

/-! ## Entity bags -/

/-- Go `type EntityBag struct`.  The columns are held in `comps`; a typed field
is `none` for a nil pointer and `some p` for a pointer to the column `comps[p]`. -/
structure EntityBag where
  count : Int
  comps : List Comp
  compsKey : compsKey
  Pos : Option Nat
  Sprite : Option Nat
  Rot : Option Nat
  TimedDestroy : Option Nat
  Momentum : Option Nat
  Spin : Option Nat
  deriving DecidableEq

def newEntityBag (compsKey : compsKey) : Except Fault EntityBag := do
  let mut bag : EntityBag :=
    { count := 0, comps := [], compsKey := compsKey,
      Pos := none, Sprite := none, Rot := none,
      TimedDestroy := none, Momentum := none, Spin := none }
  if ← inRequirement compsKey PosKey then
    bag := { bag with Pos := some bag.comps.length, comps := bag.comps ++ [Comp.vec2s []] }
  if ← inRequirement compsKey SpriteKey then
    bag := { bag with Sprite := some bag.comps.length, comps := bag.comps ++ [Comp.sprites []] }
  if ← inRequirement compsKey RotKey then
    bag := { bag with Rot := some bag.comps.length, comps := bag.comps ++ [Comp.floats []] }
  if ← inRequirement compsKey TimedDestroyKey then
    bag := { bag with TimedDestroy := some bag.comps.length,
                      comps := bag.comps ++ [Comp.floats []] }
  if ← inRequirement compsKey MomentumKey then
    bag := { bag with Momentum := some bag.comps.length, comps := bag.comps ++ [Comp.vec2s []] }
  if ← inRequirement compsKey SpinKey then
    bag := { bag with Spin := some bag.comps.length, comps := bag.comps ++ [Comp.floats []] }
  return bag

/-- The bag after `e.Add()`, and the returned row. -/
def EntityBag.Add (e : EntityBag) : EntityBag × Int :=
  let i := e.count
  ({ e with count := e.count + 1, comps := e.comps.map Comp.Extend }, i)

/-- The loop `for _, c := range e.comps { c.Swap(count, i) }`. -/
def EntityBag.swapAll (count i : Int) : List Comp → Except Fault (List Comp)
  | [] => .ok []
  | c :: cs =>
    match c.Swap count i with
    | .error f => .error f
    | .ok c1 =>
      match EntityBag.swapAll count i cs with
      | .error f => .error f
      | .ok cs1 => .ok (c1 :: cs1)

/-- The bag after `e.Remove(i)`. -/
def EntityBag.Remove (e : EntityBag) (i : Int) : Except Fault EntityBag :=
  let count := e.count - 1
  match EntityBag.swapAll count i e.comps with
  | .error f => .error f
  | .ok comps => .ok { e with count := count, comps := comps }

/-! ## The store and its iterators -/

/-- Go `map[compsKey]int`, as an association list. -/
abbrev BagsByKey := List (compsKey × Int)

/-- Map read `m[k]` in the comma-ok form. -/
def BagsByKey.get? (m : BagsByKey) (k : compsKey) : Option Int :=
  match m with
  | [] => none
  | (k1, v) :: rest => if k1 = k then some v else BagsByKey.get? rest k

/-- Map assignment `m[k] = v`. -/
def BagsByKey.set (m : BagsByKey) (k : compsKey) (v : Int) : BagsByKey :=
  (k, v) :: m.filter (fun p => decide (p.1 ≠ k))

/-- Go `type Entities struct`. -/
structure Entities where
  bags : List EntityBag
  bagsByKey : BagsByKey
  deriving DecidableEq

def newEntities : Entities :=
  { bags := [], bagsByKey := [] }

/-- Go `type Iter struct`; the field `e` is the store passed to each operation. -/
structure Iter where
  i : Int
  j : Int
  requirements : compsKey
  deriving DecidableEq

def Entities.NewIter (_e : Entities) : Iter :=
  { i := -1, j := -1, requirements := compsKey.zero }

def Iter.Require (iter : Iter) (k : CompKey) : Except Fault Iter :=
  match iter.requirements.units.get? (k / compsKeyUnitSize) with
  | none => .error .indexOutOfRange
  | some u =>
    .ok { iter with
      requirements :=
        iter.requirements.setUnit (k / compsKeyUnitSize) (u ||| (1 <<< (k % compsKeyUnitSize))) }

def Iter.meetsRequirements (iter : Iter) (bag : EntityBag) : Bool :=
  (List.range iter.requirements.units.length).all fun i =>
    decide (iter.requirements.units.getD i 0
      = (iter.requirements.units.getD i 0 &&& bag.compsKey.units.getD i 0))

/-- The inner `for` loop of `Next`, entered with bag index `i`: `(true, i1)` when it
breaks at a bag `i1` meeting the requirements, `(false, i1)` when `Next` returns
false with bag index `i1`. -/
def Iter.Next.inner (e : Entities) (iter : Iter) : Nat → Int → Except Fault (Bool × Int)
  | 0, _ => .error .outOfFuel
  | fuel + 1, i =>
    let i := i + 1
    if i ≥ e.bags.length then .ok (false, i)
    else
      match idx? e.bags i with
      | none => .error .indexOutOfRange
      | some bag =>
        if iter.meetsRequirements bag then .ok (true, i)
        else Iter.Next.inner e iter fuel i

/-- The outer `for` loop of `Next`, entered with bag index `i` and row `j`. -/
def Iter.Next.outer (e : Entities) (iter : Iter) : Nat → Int → Int → Except Fault (Bool × Iter)
  | 0, _, _ => .error .outOfFuel
  | fuel + 1, i, j =>
    let cond : Except Fault Bool :=
      if i = -1 then .ok true
      else
        match idx? e.bags i with
        | none => .error .indexOutOfRange
        | some bag => .ok (decide (j ≥ bag.count))
    match cond with
    | .error f => .error f
    | .ok false => .ok (true, { iter with i := i, j := j })
    | .ok true =>
      match Iter.Next.inner e iter (e.bags.length + 1) i with
      | .error f => .error f
      | .ok (false, i1) => .ok (false, { iter with i := i1, j := j })
      | .ok (true, i1) => Iter.Next.outer e iter fuel i1 0

/-- The result of `iter.Next()` and the iterator afterwards (the store is not written). -/
def Iter.Next (e : Entities) (iter : Iter) : Except Fault (Bool × Iter) :=
  Iter.Next.outer e iter (e.bags.length + 1) iter.i (iter.j + 1)

/-- The store and the iterator after `iter.New()`. -/
def Iter.New (e : Entities) (iter : Iter) : Except Fault (Entities × Iter) := do
  let (e1, i) ←
    match e.bagsByKey.get? iter.requirements with
    | some i => pure (e, i)
    | none => do
      let bag ← newEntityBag iter.requirements
      pure ({ bags := e.bags ++ [bag],
              bagsByKey := e.bagsByKey.set iter.requirements e.bags.length },
            (e.bags.length : Int))
  match idx? e1.bags i with
  | none => .error .indexOutOfRange
  | some bag =>
    let (bag1, j) := bag.Add
    pure ({ e1 with bags := setIdx e1.bags i bag1 }, { iter with i := i, j := j })

/-- The store and the iterator after `iter.Remove()`. -/
def Iter.Remove (e : Entities) (iter : Iter) : Except Fault (Entities × Iter) :=
  match idx? e.bags iter.i with
  | none => .error .indexOutOfRange
  | some bag =>
    match bag.Remove iter.j with
    | .error f => .error f
    | .ok bag1 =>
      .ok ({ e with bags := setIdx e.bags iter.i bag1 }, { iter with j := iter.j - 1 })

/-! ## Accessors -/

/-- A pointer into column storage: element `row` of column `comps[comp]` of `bags[bag]`. -/
structure Ref where
  bag : Int
  comp : Nat
  row : Int
  deriving DecidableEq, Repr

/-- Body shared by the six accessors: `comp := bags[i].F; if comp == nil { return nil };
return &(*comp)[j]`, for the typed field `F` whose columns satisfy `isType`. -/
def Iter.accessor (field : EntityBag → Option Nat) (isType : Comp → Bool)
    (e : Entities) (iter : Iter) : Except Fault (Option Ref) :=
  match idx? e.bags iter.i with
  | none => .error .indexOutOfRange
  | some bag =>
    match field bag with
    | none => .ok none
    | some p =>
      match bag.comps.get? p with
      | none => .error .invalidPointer
      | some c =>
        if isType c then
          if 0 ≤ iter.j ∧ iter.j < c.len then .ok (some ⟨iter.i, p, iter.j⟩)
          else .error .indexOutOfRange
        else .error .invalidPointer

def Comp.isVec2Comp : Comp → Bool
  | .vec2s _ => true
  | _ => false

def Comp.isSpriteComp : Comp → Bool
  | .sprites _ => true
  | _ => false

def Comp.isFloatComp : Comp → Bool
  | .floats _ => true
  | _ => false

def Iter.Pos := Iter.accessor EntityBag.Pos Comp.isVec2Comp
def Iter.Sprite := Iter.accessor EntityBag.Sprite Comp.isSpriteComp
def Iter.Rot := Iter.accessor EntityBag.Rot Comp.isFloatComp
def Iter.TimedDestroy := Iter.accessor EntityBag.TimedDestroy Comp.isFloatComp
def Iter.Momentum := Iter.accessor EntityBag.Momentum Comp.isVec2Comp
def Iter.Spin := Iter.accessor EntityBag.Spin Comp.isFloatComp

/-- Column element assignment `(*c)[j] = v` for a value of the column's element type. -/
def Comp.setAt : Comp → Int → Value → Except Fault Comp
  | .vec2s c, j, .vec2 v =>
    if 0 ≤ j ∧ j < c.length then .ok (.vec2s (setIdx c j v)) else .error .indexOutOfRange
  | .sprites c, j, .sprite v =>
    if 0 ≤ j ∧ j < c.length then .ok (.sprites (setIdx c j v)) else .error .indexOutOfRange
  | .floats c, j, .float v =>
    if 0 ≤ j ∧ j < c.length then .ok (.floats (setIdx c j v)) else .error .indexOutOfRange
  | _, _, _ => .error .invalidPointer

/-- Read `*r` through a pointer returned by an accessor. -/
def Entities.load (e : Entities) (r : Ref) : Option Value :=
  match idx? e.bags r.bag with
  | none => none
  | some bag =>
    match bag.comps.get? r.comp with
    | none => none
    | some c => c.at? r.row

/-- Write `*r = v` through a pointer returned by an accessor. -/
def Entities.store (e : Entities) (r : Ref) (v : Value) : Except Fault Entities :=
  match idx? e.bags r.bag with
  | none => .error .invalidPointer
  | some bag =>
    match bag.comps.get? r.comp with
    | none => .error .invalidPointer
    | some c =>
      match c.setAt r.row v with
      | .error f => .error f
      | .ok c1 =>
        .ok { e with bags := setIdx e.bags r.bag { bag with comps := bag.comps.set r.comp c1 } }

/-! ## Specification-level definitions -/

/-- Every column of the bag has exactly `count` elements. -/
def EntityBag.ColumnsSync (b : EntityBag) : Prop :=
  ∀ c ∈ b.comps, (c.len : Int) = b.count

instance : DecidablePred EntityBag.ColumnsSync := fun b => by
  unfold EntityBag.ColumnsSync; infer_instance

/-- Every column of the bag has at least `count` elements. -/
def EntityBag.ColumnsCover (b : EntityBag) : Prop :=
  ∀ c ∈ b.comps, b.count ≤ (c.len : Int)

instance : DecidablePred EntityBag.ColumnsCover := fun b => by
  unfold EntityBag.ColumnsCover; infer_instance

/-- Every bag of the store has columns of at least `count` elements. -/
def Entities.ColumnsCover (e : Entities) : Prop :=
  ∀ b ∈ e.bags, b.ColumnsCover

instance : DecidablePred Entities.ColumnsCover := fun e => by
  unfold Entities.ColumnsCover; infer_instance

/-- The iterator points at an existing row: `0 ≤ j < bags[i].count`. -/
def Iter.Positioned (e : Entities) (iter : Iter) : Prop :=
  match idx? e.bags iter.i with
  | none => False
  | some bag => 0 ≤ iter.j ∧ iter.j < bag.count

instance (e : Entities) (iter : Iter) : Decidable (iter.Positioned e) := by
  unfold Iter.Positioned; split <;> infer_instance

/-- The positions `(i, lo), (i, lo+1), ..., (i, hi-1)`. -/
def rowsBetween (i lo hi : Int) : List (Int × Int) :=
  (List.range (hi - lo).toNat).map fun (k : Nat) => (i, lo + (k : Int))

/-- A fresh iterator (`NewIter`) whose `Require` calls have built the signature `req`. -/
def Entities.NewIterWith (e : Entities) (req : compsKey) : Iter :=
  { e.NewIter with requirements := req }

/-- The positions a traversal with requirement `req` is expected to visit in the bags
`bags`, the first of which has index `n`: bag by bag, rows ascending, bags that do not
meet the requirement left out. -/
def visitsFrom (req : compsKey) : Nat → List EntityBag → List (Int × Int)
  | _, [] => []
  | n, bag :: bags =>
    (if (Iter.mk (-1) (-1) req).meetsRequirements bag then rowsBetween n 0 bag.count else [])
      ++ visitsFrom req (n + 1) bags

/-- The positions a full traversal of the store with requirement `req` is expected to visit. -/
def Entities.visits (e : Entities) (req : compsKey) : List (Int × Int) :=
  visitsFrom req 0 e.bags

/-- The positions still to be visited by an iterator: the rest of its bag, then the
later bags. -/
def Entities.remaining (e : Entities) (iter : Iter) : List (Int × Int) :=
  if iter.i = -1 then visitsFrom iter.requirements 0 e.bags
  else
    match idx? e.bags iter.i with
    | none => []
    | some bag =>
      rowsBetween iter.i (iter.j + 1) bag.count
        ++ visitsFrom iter.requirements (iter.i.toNat + 1) (e.bags.drop (iter.i.toNat + 1))

/-- The loop `for iter.Next() { }`: the positions at the successive true returns. -/
def Iter.drive (e : Entities) : Nat → Iter → Except Fault (List (Int × Int))
  | 0, _ => .error .outOfFuel
  | fuel + 1, iter =>
    match Iter.Next e iter with
    | .error f => .error f
    | .ok (false, _) => .ok []
    | .ok (true, iter1) =>
      match Iter.drive e fuel iter1 with
      | .error f => .error f
      | .ok ps => .ok ((iter1.i, iter1.j) :: ps)

/-- Row `j` of a bag: the element at index `j` of each column. -/
def EntityBag.row (b : EntityBag) (j : Int) : List (Option Value) :=
  b.comps.map fun c => c.at? j

/-- The entity at a position: its bag and the values of its row. -/
def Entities.entityAt (e : Entities) (p : Int × Int) : Int × List (Option Value) :=
  (p.1, match idx? e.bags p.1 with
        | none => []
        | some bag => bag.row p.2)

/-- The loop `for iter.Next() { }` whose body calls `iter.Remove()` once, in the
iteration after `k` earlier ones (`none`: no `Remove`); the entities seen at the
successive true returns. -/
def Iter.driveRemove :
    Option Nat → Nat → Entities → Iter → Except Fault (List (Int × List (Option Value)))
  | _, 0, _, _ => .error .outOfFuel
  | k, fuel + 1, e, iter =>
    match Iter.Next e iter with
    | .error f => .error f
    | .ok (false, _) => .ok []
    | .ok (true, iter1) =>
      let seen := e.entityAt (iter1.i, iter1.j)
      match k with
      | some 0 =>
        match Iter.Remove e iter1 with
        | .error f => .error f
        | .ok (e2, iter2) =>
          match Iter.driveRemove none fuel e2 iter2 with
          | .error f => .error f
          | .ok es => .ok (seen :: es)
      | some (k + 1) =>
        match Iter.driveRemove (some k) fuel e iter1 with
        | .error f => .error f
        | .ok es => .ok (seen :: es)
      | none =>
        match Iter.driveRemove none fuel e iter1 with
        | .error f => .error f
        | .ok es => .ok (seen :: es)

/-- The six accessors of an iterator. -/
def Iter.accessors : List (Entities → Iter → Except Fault (Option Ref)) :=
  [Iter.Pos, Iter.Sprite, Iter.Rot, Iter.TimedDestroy, Iter.Momentum, Iter.Spin]

/-- The stores the package can build: from `newEntities`, by `New` on any iterator, by
`Remove` on a positioned iterator, and by writes through the pointer an accessor
returns on a positioned iterator.  (`Require` and `Next` do not write the store.) -/
inductive Entities.Reachable : Entities → Prop
  | init : Entities.Reachable newEntities
  | New {e e1 : Entities} {iter iter1 : Iter} :
      Entities.Reachable e → Iter.New e iter = .ok (e1, iter1) → Entities.Reachable e1
  | Remove {e e1 : Entities} {iter iter1 : Iter} :
      Entities.Reachable e → iter.Positioned e → Iter.Remove e iter = .ok (e1, iter1) →
      Entities.Reachable e1
  | store {e e1 : Entities} {iter : Iter} {acc : Entities → Iter → Except Fault (Option Ref)}
      {r : Ref} {v : Value} :
      Entities.Reachable e → iter.Positioned e → acc ∈ Iter.accessors →
      acc e iter = .ok (some r) → e.store r v = .ok e1 → Entities.Reachable e1

/-- An iterator `Next` can be called on: fresh (`i = -1`), or at an existing bag. -/
def Iter.AtBag (e : Entities) (iter : Iter) : Prop :=
  iter.i = -1 ∨ ∃ bag, idx? e.bags iter.i = some bag

/-- Positions are compared bag first, then row. -/
def posLt (p q : Int × Int) : Prop := p.1 < q.1 ∨ (p.1 = q.1 ∧ p.2 < q.2)

/-- The invariant of the stores the package can build. -/
structure Entities.Inv (e : Entities) : Prop where
  /-- The map sends a signature to the index of a bag of that signature. -/
  map_sound : ∀ key i, e.bagsByKey.get? key = some i →
    ∃ bag, idx? e.bags i = some bag ∧ bag.compsKey = key
  /-- Every bag is in the map, under its signature. -/
  map_complete : ∀ i bag, idx? e.bags i = some bag → e.bagsByKey.get? bag.compsKey = some i
  /-- Counts are not negative. -/
  count_nonneg : ∀ bag ∈ e.bags, 0 ≤ bag.count
  /-- Every column holds at least `count` rows. -/
  cover : e.ColumnsCover

/-- The default value `Extend` appends to a column. -/
def Comp.defaultValue : Comp → Value
  | .vec2s _ => .vec2 vec2.zero
  | .sprites _ => .sprite SpriteUnset
  | .floats _ => .float 0

/-- All columns of the bag have the same length. -/
def EntityBag.ColumnsEqual (b : EntityBag) : Prop :=
  ∀ c ∈ b.comps, ∀ c1 ∈ b.comps, c.len = c1.len

instance : DecidablePred EntityBag.ColumnsEqual := fun b => by
  unfold EntityBag.ColumnsEqual; infer_instance

/-- The keys associated with a component, in the order of the constant block. -/
def dataKeys : List CompKey :=
  [PosKey, SpriteKey, RotKey, TimedDestroyKey, MomentumKey, SpinKey]

/-- The keys which are only used as tags. -/
def tagKeys : List CompKey :=
  [FrameEndDeleteKey, PlayerControlledShipKey, KeepInCameraKey]

/-- The empty column `newEntityBag` allocates for a data-bearing key
(`&Vec2Comp{}`, `&SpriteComp{}` or `&FloatComp{}`). -/
def emptyColumn (k : CompKey) : Comp :=
  if k = SpriteKey then .sprites []
  else if k = PosKey ∨ k = MomentumKey then .vec2s []
  else .floats []

/-- The typed field of a bag for a key (`nil` for a tag key). -/
def EntityBag.fieldOf (b : EntityBag) (k : CompKey) : Option Nat :=
  if k = PosKey then b.Pos
  else if k = SpriteKey then b.Sprite
  else if k = RotKey then b.Rot
  else if k = TimedDestroyKey then b.TimedDestroy
  else if k = MomentumKey then b.Momentum
  else if k = SpinKey then b.Spin
  else none

/-- Two columns have the same implementing type. -/
def Comp.sameKind : Comp → Comp → Bool
  | .vec2s _, .vec2s _ => true
  | .sprites _, .sprites _ => true
  | .floats _, .floats _ => true
  | _, _ => false

/-- The typed fields agree with the signature: the field of a data-bearing key is non-nil
exactly when the key's bit is set, and then points at a column of the key's type. -/
def EntityBag.FieldsOK (b : EntityBag) : Prop :=
  ∀ k ∈ dataKeys,
    ((b.fieldOf k).isSome = true ↔ inRequirement b.compsKey k = .ok true) ∧
    ∀ p, b.fieldOf k = some p →
      ∃ c, b.comps.get? p = some c ∧ c.sameKind (emptyColumn k) = true

/-- The six accessors, each with the key of its component. -/
def Iter.keyedAccessors : List (CompKey × (Entities → Iter → Except Fault (Option Ref))) :=
  [(PosKey, Iter.Pos), (SpriteKey, Iter.Sprite), (RotKey, Iter.Rot),
   (TimedDestroyKey, Iter.TimedDestroy), (MomentumKey, Iter.Momentum), (SpinKey, Iter.Spin)]

/-- A sequence of `Require` calls, in the order of the list. -/
def Iter.RequireAll (iter : Iter) : List CompKey → Except Fault Iter
  | [] => .ok iter
  | k :: ks =>
    match iter.Require k with
    | .error f => .error f
    | .ok iter1 => Iter.RequireAll iter1 ks

/-! ## Sample data -/

/-- A bag of three entities with a position column and a sprite column, laid out as
`newEntityBag` lays out the signature `{PosKey, SpriteKey}` (row `k` holds position
`(k, 0)` and sprite `10 + k`). -/
def threeRows : EntityBag :=
  { count := 3,
    comps := [Comp.vec2s [⟨0, 0⟩, ⟨1, 0⟩, ⟨2, 0⟩], Comp.sprites [10, 11, 12]],
    compsKey := (compsKey.zero.setUnit 0 3),
    Pos := some 0, Sprite := some 1, Rot := none,
    TimedDestroy := none, Momentum := none, Spin := none }

/-- A store holding the bag `threeRows`. -/
def threeRowsStore : Entities :=
  { bags := [threeRows], bagsByKey := [(threeRows.compsKey, 0)] }

/-- The signature `{PosKey}`. -/
def keyPos : compsKey := compsKey.zero.setUnit 0 1

/-- The signature `{PosKey, SpriteKey}`. -/
def keyPosSprite : compsKey := compsKey.zero.setUnit 0 3

/-- The bag of entity A, created with `{Pos}` only. -/
def bagA : EntityBag :=
  { count := 1, comps := [Comp.vec2s [vec2.zero]], compsKey := keyPos,
    Pos := some 0, Sprite := none, Rot := none,
    TimedDestroy := none, Momentum := none, Spin := none }

/-- The bag of entity B, created with `{Pos, Sprite}`. -/
def bagB : EntityBag :=
  { count := 1, comps := [Comp.vec2s [vec2.zero], Comp.sprites [SpriteUnset]],
    compsKey := keyPosSprite,
    Pos := some 0, Sprite := some 1, Rot := none,
    TimedDestroy := none, Momentum := none, Spin := none }

/-- The store after entity A has been created. -/
def storeA : Entities :=
  { bags := [bagA], bagsByKey := [(keyPos, 0)] }

/-- The store after entities A and B have been created, in that order. -/
def storeAB : Entities :=
  { bags := [bagA, bagB], bagsByKey := [(keyPosSprite, 1), (keyPos, 0)] }

/-! # Theorems -/

/-! ## Signatures -/

theorem pos_and_shift_iff (u b : Nat) : (0 < u &&& (1 <<< b)) ↔ u.testBit b = true := by
  rw [Nat.one_shiftLeft, Nat.and_two_pow]
  cases h : u.testBit b <;> simp

theorem and_eq_self_iff_testBit {b a : Nat} (hb : b < 256) :
    b &&& a = b ↔ ∀ i, i < 8 → b.testBit i = true → a.testBit i = true := by
  constructor
  · intro h i _ hi
    have := congrArg (fun x => x.testBit i) h
    simp only [Nat.testBit_and, hi, Bool.true_and] at this
    exact this
  · intro h
    apply Nat.eq_of_testBit_eq
    intro i
    rw [Nat.testBit_and]
    by_cases hi : i < 8
    · cases hbi : b.testBit i
      · simp
      · simp [h i hi hbi]
    · have : b.testBit i = false := by
        apply Nat.testBit_lt_two_pow
        calc b < 2 ^ 8 := hb
          _ ≤ 2 ^ i := Nat.pow_le_pow_right (by decide) (by omega)
      simp [this]

theorem compsKey.getD_lt (key : compsKey) (w : Nat) : key.units.getD w 0 < 256 := by
  by_cases hw : w < key.units.length
  · rw [List.getD_eq_getElem _ _ hw]
    exact key.unit_lt _ (List.getElem_mem hw)
  · rw [List.getD_eq_default _ _ (by omega)]
    decide

theorem inRequirement_eq (key : compsKey) (k : CompKey) (hk : k < compsKeyLen * compsKeyUnitSize) :
    inRequirement key k = .ok ((key.units.getD (k / compsKeyUnitSize) 0).testBit (k % compsKeyUnitSize)) := by
  have hlen := key.size_eq
  have hw : k / compsKeyUnitSize < key.units.length := by
    rw [hlen]; exact Nat.div_lt_of_lt_mul (by rw [Nat.mul_comm]; exact hk)
  unfold inRequirement
  rw [List.get?_eq_getElem?, List.getElem?_eq_getElem hw, List.getD_eq_getElem _ _ hw]
  simp only
  congr 1
  rw [Bool.eq_iff_iff]
  simp [pos_and_shift_iff]

theorem meetsRequirements_iff_units (iter : Iter) (bag : EntityBag) :
    iter.meetsRequirements bag = true ↔
      ∀ w, w < compsKeyLen →
        iter.requirements.units.getD w 0 &&& bag.compsKey.units.getD w 0
          = iter.requirements.units.getD w 0 := by
  unfold Iter.meetsRequirements
  rw [List.all_eq_true]
  simp only [List.mem_range, decide_eq_true_eq, iter.requirements.size_eq]
  constructor
  · intro h w hw; exact (h w hw).symm
  · intro h w hw; exact (h w hw).symm

theorem meetsRequirements_iff_keys (iter : Iter) (bag : EntityBag) :
    iter.meetsRequirements bag = true ↔
      ∀ k, k < compsKeyLen * compsKeyUnitSize →
        inRequirement iter.requirements k = .ok true → inRequirement bag.compsKey k = .ok true := by
  rw [meetsRequirements_iff_units]
  constructor
  · intro h k hk
    rw [inRequirement_eq _ k hk, inRequirement_eq _ k hk]
    intro hb
    have hw : k / compsKeyUnitSize < compsKeyLen :=
      Nat.div_lt_of_lt_mul (by rw [Nat.mul_comm]; exact hk)
    have := (and_eq_self_iff_testBit (compsKey.getD_lt iter.requirements _)).1 (h _ hw)
      (k % compsKeyUnitSize) (Nat.mod_lt _ (by decide))
    simp only [Except.ok.injEq] at hb ⊢
    exact this hb
  · intro h w hw
    rw [and_eq_self_iff_testBit (compsKey.getD_lt iter.requirements _)]
    intro i hi hbi
    have hk : w * compsKeyUnitSize + i < compsKeyLen * compsKeyUnitSize := by
      rw [show compsKeyUnitSize = 8 from rfl, show compsKeyLen = 2 from rfl] at *
      omega
    have h1 := h (w * compsKeyUnitSize + i) hk
    rw [inRequirement_eq _ _ hk, inRequirement_eq _ _ hk] at h1
    have e1 : (w * compsKeyUnitSize + i) / compsKeyUnitSize = w := by
      rw [show compsKeyUnitSize = 8 from rfl]
      omega
    have e2 : (w * compsKeyUnitSize + i) % compsKeyUnitSize = i := by
      rw [show compsKeyUnitSize = 8 from rfl]
      omega
    rw [e1, e2] at h1
    simp only [Except.ok.injEq] at h1
    exact h1 hbi


/-- Claim C7 (signature superset law): `meetsRequirements` holds exactly when every
bit set in the requirement is set in the bag's signature, and exactly when
`B[w] & A[w] == B[w]` for every byte `w` of the two signatures. -/
theorem C7_signature_superset_law (iter : Iter) (bag : EntityBag) :
    (iter.meetsRequirements bag = true ↔
      ∀ k, k < compsKeyLen * compsKeyUnitSize →
        inRequirement iter.requirements k = .ok true →
        inRequirement bag.compsKey k = .ok true)
    ∧ (iter.meetsRequirements bag = true ↔
      ∀ w, w < compsKeyLen →
        iter.requirements.units.getD w 0 &&& bag.compsKey.units.getD w 0
          = iter.requirements.units.getD w 0) :=
  ⟨meetsRequirements_iff_keys iter bag, meetsRequirements_iff_units iter bag⟩

/-! ## Columns: swap-remove -/

theorem idx?_eq_some_of_lt {α : Type} (c : List α) (i : Int) (h0 : 0 ≤ i) (h1 : i < c.length) :
    ∃ a, idx? c i = some a := by
  have h : i.toNat < c.length := by omega
  exact ⟨c.get ⟨i.toNat, h⟩, by simp [idx?, h0, List.getElem?_eq_getElem h]⟩

theorem idx?_eq_some_iff {α : Type} (c : List α) (i : Int) (a : α) :
    idx? c i = some a ↔ 0 ≤ i ∧ c.get? i.toNat = some a := by
  unfold idx?
  split <;> simp [*]

theorem idx?_lt {α : Type} {c : List α} {i : Int} {a : α} (h : idx? c i = some a) :
    0 ≤ i ∧ i < c.length := by
  rw [idx?_eq_some_iff] at h
  obtain ⟨h0, h1⟩ := h
  rw [List.get?_eq_getElem?] at h1
  have := (List.getElem?_eq_some_iff.1 h1).1
  omega

theorem idx?_nat {α : Type} (c : List α) (n : Nat) : idx? c (n : Int) = c.get? n := by
  simp [idx?]

theorem length_setIdx {α : Type} (c : List α) (i : Int) (v : α) :
    (setIdx c i v).length = c.length := by
  simp [setIdx]

theorem idx?_setIdx {α : Type} (c : List α) (i k : Int) (v : α) (hi : 0 ≤ i) :
    idx? (setIdx c i v) k
      = if k = i then (if i < c.length then some v else none) else idx? c k := by
  unfold idx? setIdx
  by_cases hk : 0 ≤ k
  · simp only [hk, if_true, List.get?_eq_getElem?, List.getElem?_set]
    by_cases hik : k = i
    · subst hik
      simp only [if_true]
      by_cases hl : k < c.length
      · have : k.toNat < c.length := by omega
        simp [hl, this]
      · have : ¬ k.toNat < c.length := by omega
        simp [hl, this]
    · have : ¬ i.toNat = k.toNat := by omega
      simp [hik, this]
  · have : ¬ k = i := by omega
    simp [hk, this]

theorem sliceSwap_spec {α : Type} (c : List α) (i j : Int)
    (hi0 : 0 ≤ i) (hi1 : i < c.length) (hj0 : 0 ≤ j) (hj1 : j < c.length) :
    ∃ c1, sliceSwap c i j = .ok c1 ∧ c1.length = c.length ∧
      ∀ k, idx? c1 k = if k = j then idx? c i else if k = i then idx? c j else idx? c k := by
  obtain ⟨a, ha⟩ := idx?_eq_some_of_lt c i hi0 hi1
  obtain ⟨b, hb⟩ := idx?_eq_some_of_lt c j hj0 hj1
  refine ⟨setIdx (setIdx c i b) j a, ?_, ?_, ?_⟩
  · simp [sliceSwap, ha, hb]
  · simp [length_setIdx]
  · intro k
    rw [idx?_setIdx _ _ _ _ hj0, idx?_setIdx _ _ _ _ hi0, length_setIdx]
    simp only [hi1, hj1, if_true, ha, hb]

theorem sliceSwap_error {α : Type} (c : List α) (i j : Int)
    (h : ¬ (0 ≤ i ∧ i < c.length ∧ 0 ≤ j ∧ j < c.length)) :
    sliceSwap c i j = .error .indexOutOfRange := by
  unfold sliceSwap
  split
  · rename_i a b ha hb
    have := idx?_lt ha
    have := idx?_lt hb
    omega
  · rfl

theorem Comp.Swap_spec (c : Comp) (i j : Int)
    (hi0 : 0 ≤ i) (hi1 : i < c.len) (hj0 : 0 ≤ j) (hj1 : j < c.len) :
    ∃ c1, c.Swap i j = .ok c1 ∧ c1.len = c.len ∧
      ∀ k, c1.at? k = if k = j then c.at? i else if k = i then c.at? j else c.at? k := by
  cases c with
  | vec2s l =>
    obtain ⟨l1, h1, h2, h3⟩ := sliceSwap_spec l i j hi0 hi1 hj0 hj1
    refine ⟨.vec2s l1, by simp [Comp.Swap, Vec2Comp.Swap, h1, Except.map], by simpa [Comp.len] using h2, ?_⟩
    intro k
    simp only [Comp.at?, h3]
    split_ifs <;> rfl
  | sprites l =>
    obtain ⟨l1, h1, h2, h3⟩ := sliceSwap_spec l i j hi0 hi1 hj0 hj1
    refine ⟨.sprites l1, by simp [Comp.Swap, SpriteComp.Swap, h1, Except.map], by simpa [Comp.len] using h2, ?_⟩
    intro k
    simp only [Comp.at?, h3]
    split_ifs <;> rfl
  | floats l =>
    obtain ⟨l1, h1, h2, h3⟩ := sliceSwap_spec l i j hi0 hi1 hj0 hj1
    refine ⟨.floats l1, by simp [Comp.Swap, FloatComp.Swap, h1, Except.map], by simpa [Comp.len] using h2, ?_⟩
    intro k
    simp only [Comp.at?, h3]
    split_ifs <;> rfl

/-- What `swapAll` does to columns that all contain rows `count` and `i`. -/
theorem swapAll_spec (count i : Int) (cs : List Comp)
    (h : ∀ c ∈ cs, 0 ≤ count ∧ count < c.len ∧ 0 ≤ i ∧ i < c.len) :
    ∃ cs1, EntityBag.swapAll count i cs = .ok cs1 ∧
      List.Forall₂ (fun c c1 => c1.len = c.len ∧
        ∀ k, c1.at? k = if k = i then c.at? count else if k = count then c.at? i else c.at? k)
        cs cs1 := by
  induction cs with
  | nil => exact ⟨[], rfl, List.Forall₂.nil⟩
  | cons c cs ih =>
    obtain ⟨hc0, hc1, hi0, hi1⟩ := h c (List.mem_cons_self _ _)
    obtain ⟨c1, e1, l1, a1⟩ := Comp.Swap_spec c count i hc0 hc1 hi0 hi1
    obtain ⟨cs1, e2, f2⟩ := ih (fun x hx => h x (List.mem_cons_of_mem _ hx))
    refine ⟨c1 :: cs1, ?_, List.Forall₂.cons ⟨l1, a1⟩ f2⟩
    simp [EntityBag.swapAll, e1, e2]


theorem forall₂_imp_of_mem {α β : Type} {R S : α → β → Prop} {l1 : List α} {l2 : List β}
    (h : List.Forall₂ R l1 l2) (himp : ∀ a ∈ l1, ∀ b, R a b → S a b) :
    List.Forall₂ S l1 l2 := by
  induction h with
  | nil => exact List.Forall₂.nil
  | cons hab _ ih =>
    exact List.Forall₂.cons (himp _ (List.mem_cons_self _ _) _ hab)
      (ih (fun a ha b hb => himp a (List.mem_cons_of_mem _ ha) b hb))

/-- Effect of `EntityBag.Remove` on a bag whose columns hold at least `count` rows. -/
theorem EntityBag.remove_rows_spec (b : EntityBag) (r : Int)
    (hcols : b.ColumnsCover) (hr0 : 0 ≤ r) (hr1 : r < b.count) :
    ∃ cs1, b.Remove r = .ok { b with count := b.count - 1, comps := cs1 } ∧
      List.Forall₂ (fun c c1 => c1.len = c.len ∧
        ∀ k, c1.at? k = if k = r then c.at? (b.count - 1)
                        else if k = b.count - 1 then c.at? r else c.at? k)
        b.comps cs1 := by
  obtain ⟨cs1, h1, h2⟩ := swapAll_spec (b.count - 1) r b.comps (by
    intro c hc
    have := hcols c hc
    omega)
  exact ⟨cs1, by simp [EntityBag.Remove, h1], h2⟩

/-- Claim C5 (swap-remove row contents): on a bag with `count = n ≥ 1` whose columns
have at least `n` elements, `Remove(r)` for `0 ≤ r < n` succeeds, leaves `count = n - 1`,
and in every column puts at row `r` the value that was at row `n - 1` and leaves every
other row below `n - 1` unchanged. -/
theorem C5_swap_remove_rows (b : EntityBag) (r : Int)
    (hn : 1 ≤ b.count) (hcols : b.ColumnsCover) (hr0 : 0 ≤ r) (hr1 : r < b.count) :
    ∃ b1, b.Remove r = .ok b1 ∧ b1.count = b.count - 1 ∧
      List.Forall₂ (fun c c1 =>
        c1.at? r = c.at? (b.count - 1) ∧ (c.at? (b.count - 1)).isSome = true ∧
        ∀ j, 0 ≤ j → j < b.count - 1 → j ≠ r → c1.at? j = c.at? j)
        b.comps b1.comps := by
  obtain ⟨cs1, h1, h2⟩ := EntityBag.remove_rows_spec b r hcols hr0 hr1
  refine ⟨_, h1, rfl, ?_⟩
  refine forall₂_imp_of_mem h2 ?_
  intro c hc c1 hcc
  have hlen := hcols c hc
  refine ⟨?_, ?_, ?_⟩
  · rw [hcc.2]; simp
  · cases c with
    | vec2s l =>
      obtain ⟨a, ha⟩ := idx?_eq_some_of_lt l (b.count - 1) (by omega)
        (by simp only [Comp.len] at hlen; omega)
      simp [Comp.at?, ha]
    | sprites l =>
      obtain ⟨a, ha⟩ := idx?_eq_some_of_lt l (b.count - 1) (by omega)
        (by simp only [Comp.len] at hlen; omega)
      simp [Comp.at?, ha]
    | floats l =>
      obtain ⟨a, ha⟩ := idx?_eq_some_of_lt l (b.count - 1) (by omega)
        (by simp only [Comp.len] at hlen; omega)
      simp [Comp.at?, ha]
  · intro j _ hj1 hjr
    rw [hcc.2]
    have : ¬ j = b.count - 1 := by omega
    simp [hjr, this]

/-- Witness for C5: rows `[e0, e1, e2]`, `Remove(0)` gives rows `[e2, e1]`, count 2. -/
theorem C5_swap_remove_rows_witness :
    (threeRows.Remove 0).map (fun b => (b.count, b.row 0, b.row 1))
        = .ok (2, threeRows.row 2, threeRows.row 1)
    ∧ ∃ b1, threeRows.Remove 0 = .ok b1 ∧ b1.count = threeRows.count - 1 ∧
      List.Forall₂ (fun c c1 =>
        c1.at? 0 = c.at? (threeRows.count - 1) ∧ (c.at? (threeRows.count - 1)).isSome = true ∧
        ∀ j, 0 ≤ j → j < threeRows.count - 1 → j ≠ 0 → c1.at? j = c.at? j)
        threeRows.comps b1.comps :=
  ⟨by decide, C5_swap_remove_rows threeRows 0 (by decide) (by decide) (by decide) (by decide)⟩

/-! ## The column-sync defect of `EntityBag.Remove` -/

/-- Claim C1 fails on the code: `EntityBag.Remove` never calls `RemoveLast`, so after
`Require(PosKey); New(); Remove()` on an empty store the only bag has count 0 and a
position column of length 1. -/
theorem C1_column_longer_than_count_after_Remove :
    (do
      let it1 ← Iter.Require newEntities.NewIter PosKey
      let (e1, it2) ← Iter.New newEntities it1
      let (e2, _) ← Iter.Remove e1 it2
      pure (e2.bags.map fun b => (b.count, b.comps.map Comp.len, decide b.ColumnsSync))
        : Except Fault (List (Int × List Nat × Bool)))
      = .ok [(0, [1], false)] := by
  decide

/-- Claim C2 fails on the code: after `Require(PosKey); New(); *Pos() = (1, 2); Remove()`,
a second `New()` with the same requirement returns a row whose `Pos()` points at the
removed entity's `(1, 2)`, not at the zero vector. -/
theorem C2_new_row_after_Remove_is_stale :
    (do
      let it1 ← Iter.Require newEntities.NewIter PosKey
      let (e1, it2) ← Iter.New newEntities it1
      let r ← Iter.Pos e1 it2
      let e2 ← match r with
        | none => .error .invalidPointer
        | some r => e1.store r (.vec2 ⟨1, 2⟩)
      let (e3, _) ← Iter.Remove e2 it2
      let (e4, it4) ← Iter.New e3 it1
      let r4 ← Iter.Pos e4 it4
      pure (inRequirement it1.requirements PosKey, it4.i, it4.j, r4.bind e4.load)
        : Except Fault (Except Fault Bool × Int × Int × Option Value))
      = .ok (.ok true, 0, 0, some (.vec2 ⟨1, 2⟩)) := by
  decide

/-! ## The loops of `Next` -/

theorem meets_mk (iter : Iter) (a b : Int) (bag : EntityBag) :
    (Iter.mk a b iter.requirements).meetsRequirements bag = iter.meetsRequirements bag := rfl

theorem rowsBetween_nil {i lo hi : Int} (h : hi ≤ lo) : rowsBetween i lo hi = [] := by
  have : (hi - lo).toNat = 0 := by omega
  simp [rowsBetween, this]

theorem rowsBetween_cons {i lo hi : Int} (h : lo < hi) :
    rowsBetween i lo hi = (i, lo) :: rowsBetween i (lo + 1) hi := by
  have : (hi - lo).toNat = (hi - (lo + 1)).toNat + 1 := by omega
  simp only [rowsBetween, this, List.range_succ_eq_map, List.map_cons, List.map_map]
  simp only [Nat.cast_zero, add_zero, List.cons.injEq, true_and]
  apply List.map_congr_left
  intro k _
  simp only [Function.comp, Nat.cast_succ]
  congr 1
  omega

theorem drop_eq_cons_of_get? {α : Type} {l : List α} {n : Nat} {a : α} (h : l.get? n = some a) :
    l.drop n = a :: l.drop (n + 1) := by
  rw [List.get?_eq_getElem?] at h
  obtain ⟨hn, rfl⟩ := List.getElem?_eq_some_iff.1 h
  exact List.drop_eq_getElem_cons hn

/-- The inner loop of `Next`, started after bag `n - 1`. -/
theorem inner_spec (e : Entities) (iter : Iter) :
    ∀ (d n fuel : Nat), n + d = e.bags.length → d + 1 ≤ fuel →
      (visitsFrom iter.requirements n (e.bags.drop n) = [] ∧
        Iter.Next.inner e iter fuel ((n : Int) - 1) = .ok (false, (e.bags.length : Int)))
      ∨ ∃ m bag, n ≤ m ∧ e.bags.get? m = some bag ∧ iter.meetsRequirements bag = true ∧
          visitsFrom iter.requirements n (e.bags.drop n)
            = rowsBetween m 0 bag.count
                ++ visitsFrom iter.requirements (m + 1) (e.bags.drop (m + 1)) ∧
          Iter.Next.inner e iter fuel ((n : Int) - 1) = .ok (true, (m : Int)) := by
  intro d
  induction d with
  | zero =>
    intro n fuel hn hf
    left
    obtain ⟨f, rfl⟩ : ∃ f, fuel = f + 1 := ⟨fuel - 1, by omega⟩
    have hn' : n = e.bags.length := by omega
    refine ⟨by simp [hn', visitsFrom], ?_⟩
    simp [Iter.Next.inner, hn']
  | succ d ih =>
    intro n fuel hn hf
    obtain ⟨f, rfl⟩ : ∃ f, fuel = f + 1 := ⟨fuel - 1, by omega⟩
    have hlt : n < e.bags.length := by omega
    have hget : e.bags.get? n = some (e.bags.get ⟨n, hlt⟩) := by
      simp [List.getElem?_eq_getElem hlt]
    generalize e.bags.get ⟨n, hlt⟩ = bag at hget
    have hdrop := drop_eq_cons_of_get? hget
    have hidx : idx? e.bags ((n : Int) - 1 + 1) = some bag := by
      have : (n : Int) - 1 + 1 = (n : Int) := by omega
      rw [this, idx?_nat]; exact hget
    have hnot : ¬ ((n : Int) - 1 + 1 ≥ (e.bags.length : Int)) := by omega
    by_cases hm : iter.meetsRequirements bag = true
    · right
      refine ⟨n, bag, le_refl _, hget, hm, ?_, ?_⟩
      · rw [hdrop]; simp [visitsFrom, meets_mk, hm]
      · simp only [Iter.Next.inner, hnot, if_false, hidx, hm, if_true]
        congr 2
        omega
    · have hstep : Iter.Next.inner e iter (f + 1) ((n : Int) - 1)
          = Iter.Next.inner e iter f (((n + 1 : Nat) : Int) - 1) := by
        simp only [Iter.Next.inner, hnot, if_false, hidx, hm, Bool.false_eq_true]
        congr 1
        push_cast
        omega
      have hv : visitsFrom iter.requirements n (e.bags.drop n)
          = visitsFrom iter.requirements (n + 1) (e.bags.drop (n + 1)) := by
        rw [hdrop]; simp [visitsFrom, meets_mk, hm]
      rw [hstep, hv]
      rcases ih (n + 1) f (by omega) (by omega) with h | ⟨m, bag1, h1, h2⟩
      · left; exact h
      · right; exact ⟨m, bag1, by omega, h2⟩


theorem outer_stay (e : Entities) (iter : Iter) (fuel : Nat) (i j : Int) (bag : EntityBag)
    (hb : idx? e.bags i = some bag) (hj : j < bag.count) :
    Iter.Next.outer e iter (fuel + 1) i j = .ok (true, { iter with i := i, j := j }) := by
  have h0 := (idx?_lt hb).1
  have hi : ¬ i = -1 := by omega
  have hc : ¬ j ≥ bag.count := by omega
  simp [Iter.Next.outer, hi, hb, hc]

theorem outer_seek (e : Entities) (iter : Iter) (fuel : Nat) (i j : Int)
    (h : i = -1 ∨ ∃ bag, idx? e.bags i = some bag ∧ bag.count ≤ j) :
    Iter.Next.outer e iter (fuel + 1) i j =
      match Iter.Next.inner e iter (e.bags.length + 1) i with
      | .error f => .error f
      | .ok (false, i1) => .ok (false, { iter with i := i1, j := j })
      | .ok (true, i1) => Iter.Next.outer e iter fuel i1 0 := by
  rcases h with h | ⟨bag, hb, hj⟩
  · simp only [Iter.Next.outer, h, if_true]
  · have h0 := (idx?_lt hb).1
    have hi : ¬ i = -1 := by omega
    have hd : decide (j ≥ bag.count) = true := by simpa using hj
    simp only [Iter.Next.outer, hi, if_false, hb, hd]

theorem outer_fault (e : Entities) (iter : Iter) (fuel : Nat) (i j : Int)
    (hi : i ≠ -1) (hb : idx? e.bags i = none) :
    Iter.Next.outer e iter (fuel + 1) i j = .error .indexOutOfRange := by
  simp [Iter.Next.outer, hi, hb]

/-- The outer loop of `Next` once its condition holds at bag `n - 1`: it stops at the first
later bag that meets the requirements and has a row, or returns false at `len(bags)`. -/
theorem seek_spec (e : Entities) (iter : Iter) :
    ∀ (d n fuel : Nat) (j : Int), n + d = e.bags.length → d + 1 ≤ fuel →
      (n = 0 ∨ ∃ bag, idx? e.bags ((n : Int) - 1) = some bag ∧ bag.count ≤ j) →
      (visitsFrom iter.requirements n (e.bags.drop n) = [] ∧
        ∃ j1, Iter.Next.outer e iter fuel ((n : Int) - 1) j
          = .ok (false, { iter with i := (e.bags.length : Int), j := j1 }))
      ∨ ∃ m bag, n ≤ m ∧ e.bags.get? m = some bag ∧ iter.meetsRequirements bag = true ∧
          0 < bag.count ∧
          visitsFrom iter.requirements n (e.bags.drop n)
            = rowsBetween m 0 bag.count
                ++ visitsFrom iter.requirements (m + 1) (e.bags.drop (m + 1)) ∧
          Iter.Next.outer e iter fuel ((n : Int) - 1) j
            = .ok (true, { iter with i := (m : Int), j := 0 }) := by
  intro d
  induction d using Nat.strong_induction_on with
  | _ d ih =>
    intro n fuel j hn hf hcond
    obtain ⟨f, rfl⟩ : ∃ f, fuel = f + 1 := ⟨fuel - 1, by omega⟩
    have hseek := outer_seek e iter f ((n : Int) - 1) j (by
      rcases hcond with h | h
      · left; subst h; simp
      · right; exact h)
    rcases inner_spec e iter d n (e.bags.length + 1) hn (by omega) with ⟨hv, hin⟩ | ⟨m, bag, hnm, hget, hmeets, hv, hin⟩
    · left
      refine ⟨hv, j, ?_⟩
      rw [hseek, hin]
    · rw [hin] at hseek
      simp only at hseek
      have hmlt : m < e.bags.length := by
        rw [List.get?_eq_getElem?] at hget
        exact (List.getElem?_eq_some_iff.1 hget).1
      have hidx : idx? e.bags (m : Int) = some bag := by rw [idx?_nat]; exact hget
      obtain ⟨f1, rfl⟩ : ∃ f1, f = f1 + 1 := ⟨f - 1, by omega⟩
      by_cases hc : 0 < bag.count
      · right
        refine ⟨m, bag, hnm, hget, hmeets, hc, hv, ?_⟩
        rw [hseek, outer_stay e iter f1 m 0 bag hidx hc]
      · have hrows : rowsBetween m 0 bag.count = [] := rowsBetween_nil (by omega)
        rw [hrows, List.nil_append] at hv
        have hcast : ((m + 1 : Nat) : Int) - 1 = (m : Int) := by push_cast; omega
        have := ih (e.bags.length - (m + 1)) (by omega) (m + 1) (f1 + 1) 0 (by omega) (by omega)
          (Or.inr ⟨bag, by rw [hcast]; exact hidx, by omega⟩)
        rw [hcast, ← hseek, ← hv] at this
        rcases this with h | ⟨m1, bag1, h1, h2⟩
        · left; exact h
        · right; exact ⟨m1, bag1, by omega, h2⟩


/-- `Next` returns the first of the positions still to be visited, or false when there
is none. -/
theorem Next_spec (e : Entities) (iter : Iter) (h : iter.AtBag e) :
    (e.remaining iter = [] ∧
      ∃ j1, Iter.Next e iter = .ok (false, { iter with i := (e.bags.length : Int), j := j1 }))
    ∨ ∃ p rest bag, e.remaining iter = p :: rest ∧
        Iter.Next e iter = .ok (true, { iter with i := p.1, j := p.2 }) ∧
        e.remaining { iter with i := p.1, j := p.2 } = rest ∧
        idx? e.bags p.1 = some bag ∧ p.2 < bag.count ∧
        ((p.1 = iter.i ∧ p.2 = iter.j + 1) ∨ (iter.i < p.1 ∧ p.2 = 0)) := by
  have key : ∀ (n : Nat) (j : Int), n ≤ e.bags.length → (n : Int) - 1 = iter.i →
      (n = 0 ∨ ∃ bag, idx? e.bags ((n : Int) - 1) = some bag ∧ bag.count ≤ j) →
      (visitsFrom iter.requirements n (e.bags.drop n) = [] ∧
        ∃ j1, Iter.Next.outer e iter (e.bags.length + 1) ((n : Int) - 1) j
          = .ok (false, { iter with i := (e.bags.length : Int), j := j1 }))
      ∨ ∃ p rest bag, visitsFrom iter.requirements n (e.bags.drop n) = p :: rest ∧
          Iter.Next.outer e iter (e.bags.length + 1) ((n : Int) - 1) j
            = .ok (true, { iter with i := p.1, j := p.2 }) ∧
          e.remaining { iter with i := p.1, j := p.2 } = rest ∧
          idx? e.bags p.1 = some bag ∧ p.2 < bag.count ∧ (iter.i < p.1 ∧ p.2 = 0) := by
    intro n j hn hi hcond
    rcases seek_spec e iter (e.bags.length - n) n (e.bags.length + 1) j (by omega) (by omega)
      hcond with h | ⟨m, bag, hnm, hget, _, hc, hv, hout⟩
    · left; exact h
    · right
      have hidx : idx? e.bags (m : Int) = some bag := by rw [idx?_nat]; exact hget
      refine ⟨(m, 0), rowsBetween m 1 bag.count
        ++ visitsFrom iter.requirements (m + 1) (e.bags.drop (m + 1)), bag, ?_, hout, ?_, hidx,
        hc, by simp only; omega, rfl⟩
      · rw [hv, rowsBetween_cons hc]; rfl
      · have hne : ¬ ((m : Int) = -1) := by omega
        simp [Entities.remaining, hne, hidx]
  unfold Iter.Next
  rcases h with h | ⟨bag, hb⟩
  · have hcast : ((0 : Nat) : Int) - 1 = iter.i := by simp [h]
    have := key 0 (iter.j + 1) (by omega) hcast (Or.inl rfl)
    rw [hcast, List.drop_zero] at this
    have hrem : e.remaining iter = visitsFrom iter.requirements 0 e.bags := by
      simp [Entities.remaining, h]
    rw [hrem]
    rcases this with h1 | ⟨p, rest, bag, h1, h2, h3, h4, h5, h6⟩
    · left; exact h1
    · right; exact ⟨p, rest, bag, h1, h2, h3, h4, h5, Or.inr h6⟩
  · obtain ⟨h0, h1⟩ := idx?_lt hb
    have hne : ¬ iter.i = -1 := by omega
    have hrem : e.remaining iter = rowsBetween iter.i (iter.j + 1) bag.count
        ++ visitsFrom iter.requirements (iter.i.toNat + 1) (e.bags.drop (iter.i.toNat + 1)) := by
      simp [Entities.remaining, hne, hb]
    by_cases hj : iter.j + 1 < bag.count
    · right
      refine ⟨(iter.i, iter.j + 1), rowsBetween iter.i (iter.j + 1 + 1) bag.count
        ++ visitsFrom iter.requirements (iter.i.toNat + 1) (e.bags.drop (iter.i.toNat + 1)),
        bag, ?_, ?_, ?_, hb, hj, Or.inl ⟨rfl, rfl⟩⟩
      · rw [hrem, rowsBetween_cons hj]; rfl
      · exact outer_stay e iter _ _ _ bag hb hj
      · simp [Entities.remaining, hne, hb]
    · have hcast : ((iter.i.toNat + 1 : Nat) : Int) - 1 = iter.i := by push_cast; omega
      have := key (iter.i.toNat + 1) (iter.j + 1) (by omega) hcast
        (Or.inr ⟨bag, by rw [hcast]; exact hb, by omega⟩)
      rw [hcast] at this
      rw [hrem, rowsBetween_nil (by omega), List.nil_append]
      rcases this with h1 | ⟨p, rest, bag, h1, h2, h3, h4, h5, h6⟩
      · left; exact h1
      · right; exact ⟨p, rest, bag, h1, h2, h3, h4, h5, Or.inr h6⟩

/-! ## Traversal -/

/-- `Next` never uses up the fuel its loops are given. -/
theorem Next_never_outOfFuel (e : Entities) (iter : Iter) :
    Iter.Next e iter ≠ .error .outOfFuel := by
  by_cases h : iter.AtBag e
  · rcases Next_spec e iter h with ⟨_, j1, h1⟩ | ⟨p, rest, bag, _, h1, _⟩ <;>
      rw [h1] <;> simp
  · have hi : iter.i ≠ -1 := fun hi => h (Or.inl hi)
    have hb : idx? e.bags iter.i = none := by
      cases hb : idx? e.bags iter.i with
      | none => rfl
      | some bag => exact absurd (Or.inr ⟨bag, hb⟩) h
    rw [Iter.Next, outer_fault e iter _ _ _ hi hb]
    simp

/-- Driving `Next` to exhaustion yields exactly the positions still to be visited. -/
theorem drive_spec (e : Entities) :
    ∀ (n : Nat) (iter : Iter), iter.AtBag e → (e.remaining iter).length = n →
      ∀ fuel, n < fuel → Iter.drive e fuel iter = .ok (e.remaining iter) := by
  intro n
  induction n with
  | zero =>
    intro iter h hlen fuel hf
    obtain ⟨f, rfl⟩ : ∃ f, fuel = f + 1 := ⟨fuel - 1, by omega⟩
    rcases Next_spec e iter h with ⟨h0, j1, h1⟩ | ⟨p, rest, bag, h0, _⟩
    · simp [Iter.drive, h1, h0]
    · rw [h0] at hlen; simp at hlen
  | succ n ih =>
    intro iter h hlen fuel hf
    obtain ⟨f, rfl⟩ : ∃ f, fuel = f + 1 := ⟨fuel - 1, by omega⟩
    rcases Next_spec e iter h with ⟨h0, j1, h1⟩ | ⟨p, rest, bag, h0, h1, h2, h3, _⟩
    · rw [h0] at hlen; simp at hlen
    · rw [h0] at hlen
      simp only [List.length_cons, Nat.add_right_cancel_iff] at hlen
      have := ih { iter with i := p.1, j := p.2 } (Or.inr ⟨bag, h3⟩) (by rw [h2]; exact hlen)
        f (by omega)
      simp [Iter.drive, h1, this, h2, h0]

theorem mem_rowsBetween {i lo hi : Int} {p : Int × Int} :
    p ∈ rowsBetween i lo hi ↔ p.1 = i ∧ lo ≤ p.2 ∧ p.2 < hi := by
  obtain ⟨a, b⟩ := p
  simp only [rowsBetween, List.mem_map, List.mem_range, Prod.mk.injEq]
  constructor
  · rintro ⟨k, hk, rfl, rfl⟩
    refine ⟨rfl, by omega, by omega⟩
  · rintro ⟨rfl, h1, h2⟩
    exact ⟨(b - lo).toNat, by omega, rfl, by omega⟩

theorem length_rowsBetween (i lo hi : Int) : (rowsBetween i lo hi).length = (hi - lo).toNat := by
  simp [rowsBetween]


theorem pairwise_rowsBetween (i lo hi : Int) : (rowsBetween i lo hi).Pairwise posLt := by
  unfold rowsBetween
  rw [List.pairwise_map]
  refine List.Pairwise.imp ?_ (List.pairwise_lt_range _)
  intro a b hab
  right
  exact ⟨rfl, by simp only; omega⟩

theorem mem_visitsFrom (req : compsKey) :
    ∀ (bags : List EntityBag) (n : Nat) (p : Int × Int),
      p ∈ visitsFrom req n bags ↔
        ∃ k bag, bags.get? k = some bag ∧ p.1 = ((n + k : Nat) : Int) ∧
          (Iter.mk (-1) (-1) req).meetsRequirements bag = true ∧ 0 ≤ p.2 ∧ p.2 < bag.count := by
  intro bags
  induction bags with
  | nil => intro n p; simp [visitsFrom]
  | cons bag bags ih =>
    intro n p
    simp only [visitsFrom, List.mem_append, ih]
    constructor
    · rintro (h | ⟨k, bag1, h1, h2, h3⟩)
      · split at h
        · rename_i hm
          rw [mem_rowsBetween] at h
          exact ⟨0, bag, rfl, by simpa using h.1, hm, h.2⟩
        · simp at h
      · exact ⟨k + 1, bag1, by simpa using h1, by rw [h2]; push_cast; omega, h3⟩
    · rintro ⟨k, bag1, h1, h2, h3, h4⟩
      cases k with
      | zero =>
        left
        simp only [List.get?_cons_zero, Option.some.injEq] at h1
        subst h1
        rw [if_pos h3, mem_rowsBetween]
        exact ⟨by simpa using h2, h4⟩
      | succ k =>
        right
        exact ⟨k, bag1, by simpa using h1, by rw [h2]; push_cast; omega, h3, h4⟩

theorem pairwise_visitsFrom (req : compsKey) :
    ∀ (bags : List EntityBag) (n : Nat), (visitsFrom req n bags).Pairwise posLt := by
  intro bags
  induction bags with
  | nil => intro n; simp [visitsFrom]
  | cons bag bags ih =>
    intro n
    simp only [visitsFrom]
    rw [List.pairwise_append]
    refine ⟨?_, ih (n + 1), ?_⟩
    · split
      · exact pairwise_rowsBetween _ _ _
      · exact List.Pairwise.nil
    · intro a ha b hb
      left
      have ha1 : a.1 = (n : Int) := by
        split at ha
        · exact (mem_rowsBetween.1 ha).1
        · simp at ha
      obtain ⟨k, _, _, hb1, _⟩ := (mem_visitsFrom req bags (n + 1) b).1 hb
      rw [ha1, hb1]; push_cast; omega

theorem meets_zero (a b : Int) (bag : EntityBag) :
    (Iter.mk a b compsKey.zero).meetsRequirements bag = true := by
  rw [meetsRequirements_iff_units]
  intro w _
  have : compsKey.zero.units.getD w 0 = 0 := by
    simp only [compsKey.zero]
    by_cases hw : w < compsKeyLen
    · rw [List.getD_eq_getElem _ _ (by simpa using hw)]; simp
    · rw [List.getD_eq_default _ _ (by simpa using hw)]
  rw [this]
  exact Nat.zero_and _

theorem length_visitsFrom_zero :
    ∀ (bags : List EntityBag) (n : Nat),
      (visitsFrom compsKey.zero n bags).length = (bags.map fun b => b.count.toNat).sum := by
  intro bags
  induction bags with
  | nil => intro n; simp [visitsFrom]
  | cons bag bags ih =>
    intro n
    simp [visitsFrom, meets_zero, ih, length_rowsBetween]

theorem mem_visits (e : Entities) (req : compsKey) (i j : Int) :
    (i, j) ∈ e.visits req ↔
      ∃ bag, idx? e.bags i = some bag ∧ (e.NewIterWith req).meetsRequirements bag = true ∧
        0 ≤ j ∧ j < bag.count := by
  unfold Entities.visits
  rw [mem_visitsFrom]
  constructor
  · rintro ⟨k, bag, h1, h2, h3, h4⟩
    simp only at h2 h4
    refine ⟨bag, ?_, h3, h4⟩
    rw [h2]; simp only [Nat.zero_add]; rw [idx?_nat]; exact h1
  · rintro ⟨bag, h1, h3, h4⟩
    obtain ⟨h0, h2⟩ := (idx?_eq_some_iff _ _ _).1 h1
    exact ⟨i.toNat, bag, h2, by simp only [Nat.zero_add]; omega, h3, h4⟩


/-- Membership in `e.visits`, with the superset test spelled out on key bits. -/
theorem mem_visits_keys (e : Entities) (req : compsKey) (i j : Int) :
    (i, j) ∈ e.visits req ↔
      ∃ bag, idx? e.bags i = some bag ∧
        (∀ k, k < compsKeyLen * compsKeyUnitSize →
          inRequirement req k = .ok true → inRequirement bag.compsKey k = .ok true) ∧
        0 ≤ j ∧ j < bag.count := by
  rw [mem_visits]
  constructor
  · rintro ⟨bag, h1, h2, h3⟩
    exact ⟨bag, h1, (meetsRequirements_iff_keys _ bag).1 h2, h3⟩
  · rintro ⟨bag, h1, h2, h3⟩
    exact ⟨bag, h1, (meetsRequirements_iff_keys (e.NewIterWith req) bag).2 h2, h3⟩

/-- Claim C3 (traversal correctness of `Next`): a fresh iterator with requirement `req`,
driven by `Next` until it returns false, returns true at exactly the positions of
`e.visits req`, in that order; a position is in that list exactly when its bag meets the
requirement (every key bit of the requirement is set in the bag's signature) and its row
is below the bag's count; the list is in increasing order of
(bag, row) and has no repetition; with the empty requirement its length is the sum of
the bag counts. -/
theorem C3_traversal_correct (e : Entities) (req : compsKey) :
    (∀ fuel, (e.visits req).length < fuel →
        Iter.drive e fuel (e.NewIterWith req) = .ok (e.visits req))
    ∧ (∀ i j, (i, j) ∈ e.visits req ↔
        ∃ bag, idx? e.bags i = some bag ∧ (e.NewIterWith req).meetsRequirements bag = true ∧
          0 ≤ j ∧ j < bag.count)
    ∧ (∀ i j, (i, j) ∈ e.visits req ↔
        ∃ bag, idx? e.bags i = some bag ∧
          (∀ k, k < compsKeyLen * compsKeyUnitSize →
            inRequirement req k = .ok true → inRequirement bag.compsKey k = .ok true) ∧
          0 ≤ j ∧ j < bag.count)
    ∧ (e.visits req).Pairwise posLt
    ∧ (e.visits req).Nodup
    ∧ (e.visits compsKey.zero).length = (e.bags.map fun b => b.count.toNat).sum := by
  refine ⟨?_, mem_visits e req, mem_visits_keys e req, pairwise_visitsFrom req e.bags 0, ?_,
    length_visitsFrom_zero e.bags 0⟩
  · intro fuel hf
    exact drive_spec e _ (e.NewIterWith req) (Or.inl rfl) rfl fuel hf
  · refine List.Pairwise.imp ?_ (pairwise_visitsFrom req e.bags 0)
    intro a b hab heq
    subst heq
    rcases hab with h | ⟨_, h⟩ <;> omega

/-! ## Exhaustion -/

/-- What `Next` leaves behind when it returns false. -/
theorem Next_false (e : Entities) (iter iter1 : Iter)
    (h : Iter.Next e iter = .ok (false, iter1)) :
    iter1.i = e.bags.length ∧ iter1.requirements = iter.requirements := by
  by_cases ha : iter.AtBag e
  · rcases Next_spec e iter ha with ⟨_, j1, h1⟩ | ⟨p, rest, bag, _, h1, _⟩
    · rw [h1] at h
      simp only [Except.ok.injEq, Prod.mk.injEq, true_and] at h
      subst h
      exact ⟨rfl, rfl⟩
    · rw [h1] at h; simp at h
  · have hi : iter.i ≠ -1 := fun hi => ha (Or.inl hi)
    have hb : idx? e.bags iter.i = none := by
      cases hb : idx? e.bags iter.i with
      | none => rfl
      | some bag => exact absurd (Or.inr ⟨bag, hb⟩) ha
    rw [Iter.Next, outer_fault e iter _ _ _ hi hb] at h
    simp at h

theorem idx?_length {α : Type} (c : List α) : idx? c (c.length : Int) = none := by
  rw [idx?_nat]; simp

/-- `Next` on an iterator whose bag index is `len(bags)` indexes `bags` out of range. -/
theorem Next_past_end (e : Entities) (iter : Iter) (h : iter.i = e.bags.length) :
    Iter.Next e iter = .error .indexOutOfRange := by
  rw [Iter.Next, outer_fault e iter _ _ _ (by omega) (by rw [h]; exact idx?_length _)]

/-- Counterexample to C10: on the empty store, and on a store holding one entity, the
call of `Next` after the one that returned false fails with an index out of range. -/
theorem C10_next_after_false_faults :
    (Iter.Next newEntities newEntities.NewIter = .ok (false, ⟨0, 0, compsKey.zero⟩)
      ∧ Iter.Next newEntities ⟨0, 0, compsKey.zero⟩ = .error .indexOutOfRange)
    ∧ (do
        let (e1, _) ← Iter.New newEntities newEntities.NewIter
        let (b1, it1) ← Iter.Next e1 e1.NewIter
        let (b2, it2) ← Iter.Next e1 it1
        pure (b1, b2, it2.i, Iter.Next e1 it2)
          : Except Fault (Bool × Bool × Int × Except Fault (Bool × Iter)))
        = .ok (true, false, 1, .error .indexOutOfRange) := by
  decide

/-- Claim C10 as amended: `Next` on a fresh iterator or on one at an existing bag returns
without error; when `Next` returns false it leaves the bag index at `len(bags)` and the
requirement unchanged, and on the unchanged store the next call of `Next` on that iterator
fails with an index out of range. -/
theorem C10_exhausted_next (e : Entities) (iter : Iter) :
    (iter.AtBag e → ∃ b iter1, Iter.Next e iter = .ok (b, iter1))
    ∧ ∀ iter1, Iter.Next e iter = .ok (false, iter1) →
        iter1.i = e.bags.length ∧ iter1.requirements = iter.requirements ∧
        Iter.Next e iter1 = .error .indexOutOfRange := by
  constructor
  · intro ha
    rcases Next_spec e iter ha with ⟨_, j1, h1⟩ | ⟨p, rest, bag, _, h1, _⟩
    · exact ⟨_, _, h1⟩
    · exact ⟨_, _, h1⟩
  · intro iter1 h
    obtain ⟨h1, h2⟩ := Next_false e iter iter1 h
    exact ⟨h1, h2, Next_past_end e iter1 h1⟩

/-! ## `Remove` on an iterator -/

theorem idx?_setIdx_self {α : Type} (c : List α) (i : Int) (v a : α) (h : idx? c i = some a) :
    idx? (setIdx c i v) i = some v := by
  obtain ⟨h0, h1⟩ := idx?_lt h
  rw [idx?_setIdx _ _ _ _ h0]; simp [h1]

theorem idx?_setIdx_ne {α : Type} (c : List α) (i k : Int) (v a : α) (h : idx? c i = some a)
    (hk : k ≠ i) : idx? (setIdx c i v) k = idx? c k := by
  obtain ⟨h0, _⟩ := idx?_lt h
  rw [idx?_setIdx _ _ _ _ h0]; simp [hk]

theorem map_eq_of_forall₂ {α β γ : Type} {R : α → β → Prop} {f : β → γ} {g : α → γ}
    {l1 : List α} {l2 : List β} (h : List.Forall₂ R l1 l2) (hR : ∀ a b, R a b → f b = g a) :
    l2.map f = l1.map g := by
  induction h with
  | nil => rfl
  | cons hab _ ih => simp [hR _ _ hab, ih]

/-- Effect of `Iter.Remove` on a positioned iterator whose bag's columns hold at least
`count` rows. -/
theorem Iter.remove_step_spec (e : Entities) (iter : Iter) (bag : EntityBag)
    (hbag : idx? e.bags iter.i = some bag) (hcols : bag.ColumnsCover)
    (hr0 : 0 ≤ iter.j) (hr1 : iter.j < bag.count) :
    ∃ cs1, bag.Remove iter.j = .ok { bag with count := bag.count - 1, comps := cs1 } ∧
      Iter.Remove e iter
        = .ok ({ e with bags := setIdx e.bags iter.i
                          { bag with count := bag.count - 1, comps := cs1 } },
               { iter with j := iter.j - 1 }) ∧
      List.Forall₂ (fun c c1 => c1.len = c.len ∧
        ∀ k, c1.at? k = if k = iter.j then c.at? (bag.count - 1)
                        else if k = bag.count - 1 then c.at? iter.j else c.at? k)
        bag.comps cs1 := by
  obtain ⟨cs1, h1, h2⟩ := EntityBag.remove_rows_spec bag iter.j hcols hr0 hr1
  exact ⟨cs1, h1, by simp [Iter.Remove, hbag, h1], h2⟩


/-- Claim C6 (`Iter.Remove` step): on an iterator positioned at `(i, r)` with
`0 ≤ r < bags[i].count`, `Remove` removes row `r` of bag `i` (the bag becomes
`bags[i].Remove(r)`, its count one less, the other bags untouched), keeps the iterator's
bag index and requirement and sets its row to `r - 1`; the following `Next` returns, and
it returns true at `(i, r)` exactly when `r` is below the new count, in which case row
`r` holds the values of the row that was last before the removal. -/
theorem C6_remove_then_next (e : Entities) (iter : Iter) (bag : EntityBag)
    (hbag : idx? e.bags iter.i = some bag) (hcols : bag.ColumnsCover)
    (hr0 : 0 ≤ iter.j) (hr1 : iter.j < bag.count) :
    ∃ e1 iter1 bag1, Iter.Remove e iter = .ok (e1, iter1) ∧
      bag.Remove iter.j = .ok bag1 ∧ idx? e1.bags iter.i = some bag1 ∧
      bag1.count = bag.count - 1 ∧ e1.bags.length = e.bags.length ∧
      (∀ k, k ≠ iter.i → idx? e1.bags k = idx? e.bags k) ∧
      iter1.i = iter.i ∧ iter1.requirements = iter.requirements ∧ iter1.j = iter.j - 1 ∧
      ∃ b iter2, Iter.Next e1 iter1 = .ok (b, iter2) ∧
        ((b = true ∧ iter2.i = iter.i ∧ iter2.j = iter.j) ↔ iter.j < bag1.count) ∧
        (iter.j < bag1.count → bag1.row iter.j = bag.row (bag.count - 1)) := by
  obtain ⟨cs1, h1, h2, h3⟩ := Iter.remove_step_spec e iter bag hbag hcols hr0 hr1
  have hidx1 := idx?_setIdx_self e.bags iter.i
    { bag with count := bag.count - 1, comps := cs1 } bag hbag
  refine ⟨_, _, _, h2, h1, hidx1, rfl, by simp [length_setIdx],
    fun k hk => idx?_setIdx_ne _ _ _ _ _ hbag hk, rfl, rfl, rfl, ?_⟩
  have hrow : EntityBag.row { bag with count := bag.count - 1, comps := cs1 } iter.j
      = bag.row (bag.count - 1) := by
    unfold EntityBag.row
    exact map_eq_of_forall₂ h3 (fun c c1 hc => by rw [hc.2]; simp)
  by_cases hlt : iter.j < bag.count - 1
  · refine ⟨true, ⟨iter.i, iter.j - 1 + 1, iter.requirements⟩, ?_, ?_, fun _ => hrow⟩
    · rw [Iter.Next]
      exact outer_stay _ _ _ _ _ _ hidx1 (by simpa using hlt)
    · simp only [sub_add_cancel, true_and]
      exact ⟨fun _ => hlt, fun _ => trivial⟩
  · have hat : Iter.AtBag
        { e with bags := setIdx e.bags iter.i { bag with count := bag.count - 1, comps := cs1 } }
        { iter with j := iter.j - 1 } := Or.inr ⟨_, hidx1⟩
    rcases Next_spec _ _ hat with ⟨_, j1, hn⟩ | ⟨p, rest, bag2, _, hn, _, hb2, hp2, hp⟩
    · refine ⟨false, _, hn, ?_, fun h => absurd h hlt⟩
      simp only [Bool.false_eq_true, false_and, false_iff]
      exact hlt
    · refine ⟨true, _, hn, ?_, fun h => absurd h hlt⟩
      simp only [true_and]
      constructor
      · rintro ⟨hi, hj⟩
        simp only at hi hj hp hb2
        rw [hi, hidx1] at hb2
        simp only [Option.some.injEq] at hb2
        subst hb2
        rw [hj] at hp2
        exact hp2
      · intro h; exact absurd h hlt


/-- Witness for C6: in the store holding `threeRows`, an iterator at `(0, 0)`. -/
theorem C6_remove_then_next_witness :
    (idx? threeRowsStore.bags 0 = some threeRows ∧ threeRows.ColumnsCover ∧
      (0 : Int) ≤ 0 ∧ (0 : Int) < threeRows.count)
    ∧ ∃ e1 iter1 b iter2, Iter.Remove threeRowsStore ⟨0, 0, compsKey.zero⟩ = .ok (e1, iter1) ∧
        iter1.j = -1 ∧ Iter.Next e1 iter1 = .ok (b, iter2) :=
  ⟨by decide,
    match C6_remove_then_next threeRowsStore ⟨0, 0, compsKey.zero⟩ threeRows
        (by decide) (by decide) (by decide) (by decide) with
    | ⟨e1, iter1, _, h1, _, _, _, _, _, _, _, h2, b, iter2, h3, _⟩ =>
      ⟨e1, iter1, b, iter2, h1, h2, h3⟩⟩

/-! ## Traversal with one `Remove` -/


theorem mem_of_idx? {α : Type} {c : List α} {i : Int} {a : α} (h : idx? c i = some a) : a ∈ c := by
  rw [idx?_eq_some_iff, List.get?_eq_getElem?] at h
  obtain ⟨hn, rfl⟩ := List.getElem?_eq_some_iff.1 h.2
  exact List.getElem_mem hn

theorem rowsBetween_snoc {i lo hi : Int} (h : lo < hi) :
    rowsBetween i lo hi = rowsBetween i lo (hi - 1) ++ [(i, hi - 1)] := by
  have : (hi - lo).toNat = (hi - 1 - lo).toNat + 1 := by omega
  simp only [rowsBetween, this, List.range_succ, List.map_append, List.map_cons, List.map_nil,
    List.append_cancel_left_eq, List.cons.injEq, Prod.mk.injEq, true_and, and_true]
  omega

theorem drop_setIdx {α : Type} (c : List α) (i : Int) (v : α) :
    (setIdx c i v).drop (i.toNat + 1) = c.drop (i.toNat + 1) := by
  unfold setIdx
  exact List.drop_set_of_lt _ _ (by omega)


theorem entityAt_setIdx_ne (e : Entities) (i : Int) (b1 bag : EntityBag)
    (hbag : idx? e.bags i = some bag) (q : Int × Int) (hq : q.1 ≠ i) :
    Entities.entityAt { e with bags := setIdx e.bags i b1 } q = e.entityAt q := by
  unfold Entities.entityAt
  simp only [idx?_setIdx_ne _ _ _ _ _ hbag hq]

theorem entityAt_setIdx_self (e : Entities) (i j : Int) (b1 bag : EntityBag)
    (hbag : idx? e.bags i = some bag) :
    Entities.entityAt { e with bags := setIdx e.bags i b1 } (i, j) = (i, b1.row j) := by
  unfold Entities.entityAt
  simp only [idx?_setIdx_self _ _ _ _ hbag]

theorem entityAt_of_idx? (e : Entities) (i j : Int) (bag : EntityBag)
    (hbag : idx? e.bags i = some bag) : e.entityAt (i, j) = (i, bag.row j) := by
  unfold Entities.entityAt
  simp only [hbag]

/-- The entities a traversal still sees after `Remove` at `(i, r)` are, up to order, those
it would have seen without it: the last row of the bag now comes first. -/
theorem remaining_after_Remove (e : Entities) (iter : Iter) (bag : EntityBag) (cs1 : List Comp)
    (hbag : idx? e.bags iter.i = some bag) (hr1 : iter.j < bag.count)
    (hcs : List.Forall₂ (fun c c1 => c1.len = c.len ∧
        ∀ k, c1.at? k = if k = iter.j then c.at? (bag.count - 1)
                        else if k = bag.count - 1 then c.at? iter.j else c.at? k)
        bag.comps cs1) :
    let e2 : Entities :=
      { e with bags := setIdx e.bags iter.i { bag with count := bag.count - 1, comps := cs1 } }
    let it2 : Iter := { iter with j := iter.j - 1 }
    ((e2.remaining it2).map e2.entityAt).Perm ((e.remaining iter).map e.entityAt) := by
  intro e2 it2
  have hi0 := (idx?_lt hbag).1
  have hne : ¬ iter.i = -1 := by omega
  have hidx2 : idx? e2.bags iter.i = some { bag with count := bag.count - 1, comps := cs1 } :=
    idx?_setIdx_self _ _ _ _ hbag
  have h1 : e.remaining iter = rowsBetween iter.i (iter.j + 1) bag.count
      ++ visitsFrom iter.requirements (iter.i.toNat + 1) (e.bags.drop (iter.i.toNat + 1)) := by
    simp [Entities.remaining, hne, hbag]
  have h2 : e2.remaining it2 = rowsBetween iter.i iter.j (bag.count - 1)
      ++ visitsFrom iter.requirements (iter.i.toNat + 1) (e.bags.drop (iter.i.toNat + 1)) := by
    have : e2.bags.drop (iter.i.toNat + 1) = e.bags.drop (iter.i.toNat + 1) := drop_setIdx _ _ _
    simp only [Entities.remaining, it2, hne, if_false, hidx2, this, sub_add_cancel]
  rw [h1, h2, List.map_append, List.map_append]
  have hV : (visitsFrom iter.requirements (iter.i.toNat + 1) (e.bags.drop (iter.i.toNat + 1))).map
      e2.entityAt
      = (visitsFrom iter.requirements (iter.i.toNat + 1) (e.bags.drop (iter.i.toNat + 1))).map
      e.entityAt := by
    apply List.map_congr_left
    intro q hq
    obtain ⟨k, _, _, hq1, _⟩ := (mem_visitsFrom _ _ _ _).1 hq
    apply entityAt_setIdx_ne e iter.i _ bag hbag q
    rw [hq1]; push_cast; omega
  rw [hV]
  apply List.Perm.append_right
  have hrowk : ∀ k, EntityBag.row { bag with count := bag.count - 1, comps := cs1 } k
      = if k = iter.j then bag.row (bag.count - 1)
        else if k = bag.count - 1 then bag.row iter.j else bag.row k := by
    intro k
    unfold EntityBag.row
    split_ifs with hk1 hk2
    · exact map_eq_of_forall₂ hcs (fun c c1 hc => by rw [hc.2, if_pos hk1])
    · exact map_eq_of_forall₂ hcs (fun c c1 hc => by rw [hc.2, if_neg hk1, if_pos hk2])
    · exact map_eq_of_forall₂ hcs (fun c c1 hc => by rw [hc.2, if_neg hk1, if_neg hk2])
  by_cases hlt : iter.j < bag.count - 1
  · rw [rowsBetween_cons hlt, rowsBetween_snoc (show iter.j + 1 < bag.count by omega),
      List.map_cons, List.map_append, List.map_cons, List.map_nil]
    have hX : e2.entityAt (iter.i, iter.j) = e.entityAt (iter.i, bag.count - 1) := by
      rw [entityAt_setIdx_self e _ _ _ bag hbag, entityAt_of_idx? e _ _ bag hbag, hrowk, if_pos rfl]
    have hM : (rowsBetween iter.i (iter.j + 1) (bag.count - 1)).map e2.entityAt
        = (rowsBetween iter.i (iter.j + 1) (bag.count - 1)).map e.entityAt := by
      apply List.map_congr_left
      intro q hq
      obtain ⟨a, b⟩ := q
      obtain ⟨hq1, hq2, hq3⟩ := mem_rowsBetween.1 hq
      simp only at hq1 hq2 hq3
      subst hq1
      rw [entityAt_setIdx_self e _ _ _ bag hbag, entityAt_of_idx? e _ _ bag hbag, hrowk,
        if_neg (by omega), if_neg (by omega)]
    rw [hX, hM]
    exact (List.perm_append_singleton _ _).symm
  · rw [rowsBetween_nil (show bag.count - 1 ≤ iter.j by omega),
      rowsBetween_nil (show bag.count ≤ iter.j + 1 by omega)]
    exact List.Perm.refl _


/-- Without `Remove`, the loop sees the entities at the positions still to be visited. -/
theorem driveRemove_none (e : Entities) :
    ∀ (n : Nat) (iter : Iter), iter.AtBag e → (e.remaining iter).length = n →
      ∀ fuel, n < fuel →
        Iter.driveRemove none fuel e iter = .ok ((e.remaining iter).map e.entityAt) := by
  intro n
  induction n with
  | zero =>
    intro iter h hlen fuel hf
    obtain ⟨f, rfl⟩ : ∃ f, fuel = f + 1 := ⟨fuel - 1, by omega⟩
    rcases Next_spec e iter h with ⟨h0, j1, h1⟩ | ⟨p, rest, bag, h0, _⟩
    · simp [Iter.driveRemove, h1, h0]
    · rw [h0] at hlen; simp at hlen
  | succ n ih =>
    intro iter h hlen fuel hf
    obtain ⟨f, rfl⟩ : ∃ f, fuel = f + 1 := ⟨fuel - 1, by omega⟩
    rcases Next_spec e iter h with ⟨h0, j1, h1⟩ | ⟨p, rest, bag, h0, h1, h2, h3, _⟩
    · rw [h0] at hlen; simp at hlen
    · rw [h0] at hlen
      simp only [List.length_cons, Nat.add_right_cancel_iff] at hlen
      have := ih { iter with i := p.1, j := p.2 } (Or.inr ⟨bag, h3⟩) (by rw [h2]; exact hlen)
        f (by omega)
      simp [Iter.driveRemove, h1, this, h2, h0]

/-- With `Remove` in iteration `k`, the loop sees the entities at the first `k + 1`
positions, then whatever the loop sees after the `Remove`. -/
theorem driveRemove_some (e : Entities) :
    ∀ (k : Nat) (iter : Iter) (fuel : Nat), iter.AtBag e → -1 ≤ iter.j →
      k < (e.remaining iter).length → k < fuel →
      ∃ pre p post bag, e.remaining iter = pre ++ p :: post ∧ pre.length = k ∧
        idx? e.bags p.1 = some bag ∧ 0 ≤ p.2 ∧ p.2 < bag.count ∧
        e.remaining { iter with i := p.1, j := p.2 } = post ∧
        ∀ e2 it2 es, Iter.Remove e { iter with i := p.1, j := p.2 } = .ok (e2, it2) →
          Iter.driveRemove none (fuel - (k + 1)) e2 it2 = .ok es →
          Iter.driveRemove (some k) fuel e iter
            = .ok ((pre ++ [p]).map e.entityAt ++ es) := by
  intro k
  induction k with
  | zero =>
    intro iter fuel h hj hk hf
    obtain ⟨f, rfl⟩ : ∃ f, fuel = f + 1 := ⟨fuel - 1, by omega⟩
    rcases Next_spec e iter h with ⟨h0, j1, h1⟩ | ⟨p, rest, bag, h0, h1, h2, h3, h4, h5⟩
    · rw [h0] at hk; simp at hk
    · refine ⟨[], p, rest, bag, by simpa using h0, rfl, h3, by omega, h4, h2, ?_⟩
      intro e2 it2 es hrem hes
      simp only [Nat.zero_add, Nat.add_sub_cancel] at hes
      simp [Iter.driveRemove, h1, hrem, hes]
  | succ k ih =>
    intro iter fuel h hj hk hf
    obtain ⟨f, rfl⟩ : ∃ f, fuel = f + 1 := ⟨fuel - 1, by omega⟩
    rcases Next_spec e iter h with ⟨h0, j1, h1⟩ | ⟨p, rest, bag, h0, h1, h2, h3, h4, h5⟩
    · rw [h0] at hk; simp at hk
    · rw [h0] at hk
      simp only [List.length_cons, Nat.add_lt_add_iff_right] at hk
      obtain ⟨pre, q, post, bagq, g0, g1, g2, g3, g4, g5, g6⟩ :=
        ih { iter with i := p.1, j := p.2 } f (Or.inr ⟨bag, h3⟩) (by simp only; omega)
          (by rw [h2]; exact hk) (by omega)
      refine ⟨p :: pre, q, post, bagq, ?_, by simp [g1], g2, g3, g4, g5, ?_⟩
      · rw [h0, ← h2, g0]; rfl
      · intro e2 it2 es hrem hes
        have hf' : f + 1 - (k + 1 + 1) = f - (k + 1) := by omega
        rw [hf'] at hes
        have := g6 e2 it2 es hrem hes
        simp [Iter.driveRemove, h1, this]


/-- Claim C4 (traversal with one `Remove`): on a store whose columns hold at least `count`
rows, a fresh iterator driven by `Next` to exhaustion, with `Remove` called once right
after the successful `Next` number `k + 1`, sees a rearrangement of the entities that
matched the requirement at the start; so when those are pairwise distinguishable, each
is seen exactly once. -/
theorem C4_traversal_with_one_remove (e : Entities) (req : compsKey) (k fuel : Nat)
    (hcols : e.ColumnsCover) (hk : k < (e.visits req).length)
    (hfuel : (e.visits req).length < fuel) :
    ∃ seen, Iter.driveRemove (some k) fuel e (e.NewIterWith req) = .ok seen ∧
      seen.Perm ((e.visits req).map e.entityAt) ∧
      (((e.visits req).map e.entityAt).Nodup →
        seen.Nodup ∧ ∀ x, x ∈ seen ↔ x ∈ (e.visits req).map e.entityAt) := by
  have hrem0 : e.remaining (e.NewIterWith req) = e.visits req := rfl
  obtain ⟨pre, p, post, bag, g0, g1, g2, g3, g4, g5, g6⟩ :=
    driveRemove_some e k (e.NewIterWith req) fuel (Or.inl rfl) (le_refl _)
      (by rw [hrem0]; exact hk) (by omega)
  rw [hrem0] at g0
  have g5 : e.remaining ⟨p.1, p.2, req⟩ = post := g5
  have g6 : ∀ e2 it2 es, Iter.Remove e ⟨p.1, p.2, req⟩ = .ok (e2, it2) →
      Iter.driveRemove none (fuel - (k + 1)) e2 it2 = .ok es →
      Iter.driveRemove (some k) fuel e (e.NewIterWith req)
        = .ok ((pre ++ [p]).map e.entityAt ++ es) := g6
  obtain ⟨cs1, _, hrem, hcs⟩ :=
    Iter.remove_step_spec e ⟨p.1, p.2, req⟩ bag g2 (hcols bag (mem_of_idx? g2)) g3 g4
  have hperm := remaining_after_Remove e ⟨p.1, p.2, req⟩ bag cs1 g2 g4 hcs
  simp only at hperm hrem
  rw [g5] at hperm
  have hlen := hperm.length_eq
  simp only [List.length_map] at hlen
  have hvlen : (e.visits req).length = k + 1 + post.length := by
    rw [g0]; simp [g1]; omega
  have hat : Iter.AtBag
      { e with bags := setIdx e.bags p.1 { bag with count := bag.count - 1, comps := cs1 } }
      ⟨p.1, p.2 - 1, req⟩ :=
    Or.inr ⟨_, idx?_setIdx_self e.bags p.1
      { bag with count := bag.count - 1, comps := cs1 } bag g2⟩
  have hnone := driveRemove_none _ _ _ hat rfl (fuel - (k + 1)) (by rw [hlen]; omega)
  have hseen := g6 _ _ _ hrem hnone
  have hsplit : (e.visits req).map e.entityAt
      = (pre ++ [p]).map e.entityAt ++ post.map e.entityAt := by
    rw [g0]; simp
  refine ⟨_, hseen, ?_, fun hnd => ?_⟩
  · rw [hsplit]
    exact List.Perm.append_left _ hperm
  · have hP := List.Perm.append_left ((pre ++ [p]).map e.entityAt) hperm
    rw [← hsplit] at hP
    exact ⟨hP.nodup_iff.2 hnd, fun x => hP.mem_iff⟩


/-- Witness for C4: in the store holding `threeRows`, `Remove` right after the first
successful `Next`; the entities are seen in the order row 0, row 2, row 1. -/
theorem C4_traversal_with_one_remove_witness :
    (threeRowsStore.ColumnsCover ∧ 0 < (threeRowsStore.visits compsKey.zero).length ∧
      (threeRowsStore.visits compsKey.zero).length < 4)
    ∧ Iter.driveRemove (some 0) 4 threeRowsStore (threeRowsStore.NewIterWith compsKey.zero)
        = .ok [threeRowsStore.entityAt (0, 0), threeRowsStore.entityAt (0, 2),
               threeRowsStore.entityAt (0, 1)]
    ∧ ∃ seen, Iter.driveRemove (some 0) 4 threeRowsStore
          (threeRowsStore.NewIterWith compsKey.zero) = .ok seen ∧
        seen.Perm ((threeRowsStore.visits compsKey.zero).map threeRowsStore.entityAt) :=
  ⟨by decide, by decide,
    match C4_traversal_with_one_remove threeRowsStore compsKey.zero 0 4
        (by decide) (by decide) (by decide) with
    | ⟨seen, h1, h2, _⟩ => ⟨seen, h1, h2⟩⟩

/-! ## The invariant of reachable stores -/


theorem newEntityBag_spec (key : compsKey) :
    ∃ bag, newEntityBag key = .ok bag ∧ bag.compsKey = key ∧ bag.count = 0 ∧
      ∀ c ∈ bag.comps, c.len = 0 := by
  have h0 := inRequirement_eq key PosKey (by decide)
  have h1 := inRequirement_eq key SpriteKey (by decide)
  have h2 := inRequirement_eq key RotKey (by decide)
  have h3 := inRequirement_eq key TimedDestroyKey (by decide)
  have h4 := inRequirement_eq key MomentumKey (by decide)
  have h5 := inRequirement_eq key SpinKey (by decide)
  unfold newEntityBag
  rw [h0, h1, h2, h3, h4, h5]
  generalize (key.units.getD (PosKey / compsKeyUnitSize) 0).testBit (PosKey % compsKeyUnitSize) = b0
  generalize (key.units.getD (SpriteKey / compsKeyUnitSize) 0).testBit (SpriteKey % compsKeyUnitSize) = b1
  generalize (key.units.getD (RotKey / compsKeyUnitSize) 0).testBit (RotKey % compsKeyUnitSize) = b2
  generalize (key.units.getD (TimedDestroyKey / compsKeyUnitSize) 0).testBit (TimedDestroyKey % compsKeyUnitSize) = b3
  generalize (key.units.getD (MomentumKey / compsKeyUnitSize) 0).testBit (MomentumKey % compsKeyUnitSize) = b4
  generalize (key.units.getD (SpinKey / compsKeyUnitSize) 0).testBit (SpinKey % compsKeyUnitSize) = b5
  cases b0 <;> cases b1 <;> cases b2 <;> cases b3 <;> cases b4 <;> cases b5 <;>
    exact ⟨_, rfl, rfl, rfl, by simp [Comp.len]⟩


theorem BagsByKey.get?_set_self (m : BagsByKey) (k : compsKey) (v : Int) :
    (m.set k v).get? k = some v := by
  simp [BagsByKey.set, BagsByKey.get?]

theorem BagsByKey.get?_filter_ne (m : BagsByKey) (k k1 : compsKey) (h : k1 ≠ k) :
    BagsByKey.get? (m.filter (fun p => decide (p.1 ≠ k))) k1 = m.get? k1 := by
  induction m with
  | nil => rfl
  | cons p m ih =>
    obtain ⟨a, b⟩ := p
    rw [List.filter_cons]
    split_ifs with hp
    · by_cases hk : a = k1
      · simp only [BagsByKey.get?, hk, if_true]
      · simp only [BagsByKey.get?, hk, if_false]; exact ih
    · have ha : a = k := by simpa using hp
      have : ¬ a = k1 := by rw [ha]; exact fun h1 => h h1.symm
      simp only [BagsByKey.get?, this, if_false]; exact ih

theorem BagsByKey.get?_set_ne (m : BagsByKey) (k k1 : compsKey) (v : Int) (h : k1 ≠ k) :
    (m.set k v).get? k1 = m.get? k1 := by
  have : ¬ k = k1 := fun h1 => h h1.symm
  simp only [BagsByKey.set, BagsByKey.get?, this, if_false]
  exact BagsByKey.get?_filter_ne m k k1 h

theorem idx?_append_length {α : Type} (c : List α) (a : α) :
    idx? (c ++ [a]) (c.length : Int) = some a := by
  rw [idx?_nat]; simp

theorem idx?_append_of_some {α : Type} (c : List α) (a b : α) (k : Int)
    (h : idx? c k = some b) : idx? (c ++ [a]) k = some b := by
  rw [idx?_eq_some_iff] at h ⊢
  refine ⟨h.1, ?_⟩
  rw [List.get?_eq_getElem?] at h ⊢
  obtain ⟨hn, rfl⟩ := List.getElem?_eq_some_iff.1 h.2
  rw [List.getElem?_append_left hn, List.getElem?_eq_getElem hn]

theorem idx?_append_cases {α : Type} (c : List α) (a b : α) (k : Int)
    (h : idx? (c ++ [a]) k = some b) :
    idx? c k = some b ∨ (k = c.length ∧ b = a) := by
  have hlt := idx?_lt h
  simp only [List.length_append, List.length_singleton] at hlt
  by_cases hk : k < c.length
  · left
    obtain ⟨b1, hb1⟩ := idx?_eq_some_of_lt c k hlt.1 hk
    rw [idx?_append_of_some c a b1 k hb1] at h
    rw [hb1, ← h]
  · right
    have hk1 : k = (c.length : Int) := by push_cast at hlt; omega
    subst hk1
    rw [idx?_append_length] at h
    exact ⟨rfl, (Option.some.inj h).symm⟩

theorem Inv_newEntities : newEntities.Inv where
  map_sound := by intro key i h; simp [newEntities, BagsByKey.get?] at h
  map_complete := by intro i bag h; simp [newEntities, idx?] at h
  count_nonneg := by intro bag h; simp [newEntities] at h
  cover := by intro bag h; simp [newEntities] at h

/-- Replacing a bag by one of the same signature keeps the invariant. -/
theorem Inv_setIdx (e : Entities) (hinv : e.Inv) (i : Int) (bag bag1 : EntityBag)
    (hbag : idx? e.bags i = some bag) (hkey : bag1.compsKey = bag.compsKey)
    (hcount : 0 ≤ bag1.count) (hcover : bag1.ColumnsCover) :
    Entities.Inv { e with bags := setIdx e.bags i bag1 } where
  map_sound := by
    intro key k h
    obtain ⟨b, hb, hbk⟩ := hinv.map_sound key k h
    by_cases hk : k = i
    · subst hk
      rw [hbag] at hb
      obtain rfl := Option.some.inj hb
      exact ⟨bag1, idx?_setIdx_self _ _ _ _ hbag, by rw [hkey, hbk]⟩
    · exact ⟨b, by simp only [idx?_setIdx_ne _ _ _ _ _ hbag hk, hb], hbk⟩
  map_complete := by
    intro k b hb
    by_cases hk : k = i
    · subst hk
      simp only [idx?_setIdx_self _ _ _ _ hbag, Option.some.injEq] at hb
      subst hb
      rw [hkey]
      exact hinv.map_complete _ _ hbag
    · simp only [idx?_setIdx_ne _ _ _ _ _ hbag hk] at hb
      exact hinv.map_complete _ _ hb
  count_nonneg := by
    intro b hb
    rcases List.mem_or_eq_of_mem_set hb with h | h
    · exact hinv.count_nonneg b h
    · rw [h]; exact hcount
  cover := by
    intro b hb
    rcases List.mem_or_eq_of_mem_set hb with h | h
    · exact hinv.cover b h
    · rw [h]; exact hcover

/-- Appending a bag of a signature that the map does not have keeps the invariant. -/
theorem Inv_append (e : Entities) (hinv : e.Inv) (bag0 : EntityBag)
    (hnone : e.bagsByKey.get? bag0.compsKey = none)
    (hcount : 0 ≤ bag0.count) (hcover : bag0.ColumnsCover) :
    Entities.Inv { bags := e.bags ++ [bag0],
                   bagsByKey := e.bagsByKey.set bag0.compsKey e.bags.length } where
  map_sound := by
    intro key k h
    by_cases hk : key = bag0.compsKey
    · subst hk
      rw [BagsByKey.get?_set_self] at h
      obtain rfl := Option.some.inj h
      exact ⟨bag0, idx?_append_length _ _, rfl⟩
    · rw [BagsByKey.get?_set_ne _ _ _ _ hk] at h
      obtain ⟨b, hb, hbk⟩ := hinv.map_sound key k h
      exact ⟨b, idx?_append_of_some _ _ _ _ hb, hbk⟩
  map_complete := by
    intro k b hb
    rcases idx?_append_cases _ _ _ _ hb with h | ⟨h1, h2⟩
    · have := hinv.map_complete _ _ h
      have hne : b.compsKey ≠ bag0.compsKey := by
        intro heq
        rw [heq, hnone] at this
        simp at this
      simp only
      rw [BagsByKey.get?_set_ne _ _ _ _ hne]
      exact this
    · subst h1 h2
      exact BagsByKey.get?_set_self _ _ _
  count_nonneg := by
    intro b hb
    rcases List.mem_append.1 hb with h | h
    · exact hinv.count_nonneg b h
    · rw [List.mem_singleton.1 h]; exact hcount
  cover := by
    intro b hb
    rcases List.mem_append.1 hb with h | h
    · exact hinv.cover b h
    · rw [List.mem_singleton.1 h]; exact hcover

theorem Comp.len_Extend (c : Comp) : c.Extend.len = c.len + 1 := by
  cases c <;> simp [Comp.Extend, Comp.len, Vec2Comp.Extend, SpriteComp.Extend, FloatComp.Extend]

theorem EntityBag.Add_cover (b : EntityBag) (h : b.ColumnsCover) : b.Add.1.ColumnsCover := by
  intro c hc
  simp only [EntityBag.Add, List.mem_map] at hc ⊢
  obtain ⟨c0, hc0, rfl⟩ := hc
  have := h c0 hc0
  rw [Comp.len_Extend]
  push_cast
  omega


/-- Effect of `Iter.New` on a store that satisfies the invariant: `e0` is the store once the
bag is looked up or created, `bag0` that bag before `Add`. -/
theorem Iter.New_spec (e : Entities) (iter : Iter) (hinv : e.Inv) :
    ∃ i bag0 e0,
      ((e.bagsByKey.get? iter.requirements = some i ∧ e0 = e) ∨
        (e.bagsByKey.get? iter.requirements = none ∧ i = e.bags.length ∧ bag0.count = 0 ∧
          e0 = { bags := e.bags ++ [bag0],
                 bagsByKey := e.bagsByKey.set iter.requirements e.bags.length })) ∧
      e0.Inv ∧ idx? e0.bags i = some bag0 ∧ bag0.compsKey = iter.requirements ∧
      e0.bagsByKey.get? iter.requirements = some i ∧
      Iter.New e iter
        = .ok ({ e0 with bags := setIdx e0.bags i bag0.Add.1 },
               { iter with i := i, j := bag0.count }) := by
  cases hlook : e.bagsByKey.get? iter.requirements with
  | some i =>
    obtain ⟨bag0, hb, hk⟩ := hinv.map_sound _ _ hlook
    refine ⟨i, bag0, e, Or.inl ⟨rfl, rfl⟩, hinv, hb, hk, hlook, ?_⟩
    simp [Iter.New, hlook, hb, EntityBag.Add, bind, Except.bind, pure, Except.pure]
  | none =>
    obtain ⟨bag0, hnew, hk, hc, hlen⟩ := newEntityBag_spec iter.requirements
    have hcover : bag0.ColumnsCover := by
      intro c hcm
      rw [hlen c hcm, hc]; simp
    have hinv0 := Inv_append e hinv bag0 (by rw [hk]; exact hlook) (by omega) hcover
    rw [hk] at hinv0
    refine ⟨e.bags.length, bag0, _, Or.inr ⟨rfl, rfl, hc, rfl⟩, hinv0,
      idx?_append_length _ _, hk, BagsByKey.get?_set_self _ _ _, ?_⟩
    simp [Iter.New, hlook, hnew, idx?_append_length, EntityBag.Add, bind, Except.bind, pure,
      Except.pure]

theorem forall₂_right {α β : Type} {P : β → Prop} {l1 : List α} {l2 : List β}
    (h : List.Forall₂ (fun (_ : α) b => P b) l1 l2) : ∀ b ∈ l2, P b := by
  induction h with
  | nil => intro b hb; simp at hb
  | cons hab _ ih =>
    intro b hb
    rcases List.mem_cons.1 hb with h | h
    · rw [h]; exact hab
    · exact ih b h

theorem Iter.New_inv (e e1 : Entities) (iter iter1 : Iter) (hinv : e.Inv)
    (h : Iter.New e iter = .ok (e1, iter1)) : e1.Inv := by
  obtain ⟨i, bag0, e0, _, hinv0, hb, _, _, hnew⟩ := Iter.New_spec e iter hinv
  rw [hnew] at h
  simp only [Except.ok.injEq, Prod.mk.injEq] at h
  rw [← h.1]
  exact Inv_setIdx e0 hinv0 i bag0 bag0.Add.1 hb rfl
    (by have := hinv0.count_nonneg bag0 (mem_of_idx? hb); simp only [EntityBag.Add]; omega)
    (EntityBag.Add_cover bag0 (hinv0.cover bag0 (mem_of_idx? hb)))

theorem Iter.Remove_inv (e e1 : Entities) (iter iter1 : Iter) (hinv : e.Inv)
    (hpos : iter.Positioned e) (h : Iter.Remove e iter = .ok (e1, iter1)) : e1.Inv := by
  unfold Iter.Positioned at hpos
  cases hb : idx? e.bags iter.i with
  | none => rw [hb] at hpos; exact absurd hpos (by simp)
  | some bag =>
    rw [hb] at hpos
    simp only at hpos
    obtain ⟨cs1, _, hrem, hcs⟩ :=
      Iter.remove_step_spec e iter bag hb (hinv.cover bag (mem_of_idx? hb)) hpos.1 hpos.2
    rw [hrem] at h
    simp only [Except.ok.injEq, Prod.mk.injEq] at h
    rw [← h.1]
    refine Inv_setIdx e hinv iter.i bag _ hb rfl (by simp only; omega) ?_
    have hcov := hinv.cover bag (mem_of_idx? hb)
    have : List.Forall₂ (fun (_ : Comp) c1 => bag.count - 1 ≤ (c1.len : Int)) bag.comps cs1 :=
      forall₂_imp_of_mem hcs (fun c hc c1 hcc => by
        have := hcov c hc
        rw [hcc.1]; omega)
    exact forall₂_right this

theorem Comp.len_setAt (c c1 : Comp) (j : Int) (v : Value) (h : c.setAt j v = .ok c1) :
    c1.len = c.len := by
  cases c <;> cases v <;> simp only [Comp.setAt] at h <;>
    first
    | (split at h
       · simp only [Except.ok.injEq] at h
         rw [← h]; simp [Comp.len, length_setIdx]
       · simp at h)
    | simp at h

theorem Entities.store_inv (e e1 : Entities) (r : Ref) (v : Value) (hinv : e.Inv)
    (h : e.store r v = .ok e1) : e1.Inv := by
  unfold Entities.store at h
  cases hb : idx? e.bags r.bag with
  | none => rw [hb] at h; simp at h
  | some bag =>
    rw [hb] at h
    simp only at h
    cases hc : bag.comps.get? r.comp with
    | none => rw [hc] at h; simp at h
    | some c =>
      rw [hc] at h
      simp only at h
      cases hs : c.setAt r.row v with
      | error f => rw [hs] at h; simp at h
      | ok c1 =>
        rw [hs] at h
        simp only [Except.ok.injEq] at h
        rw [← h]
        refine Inv_setIdx e hinv r.bag bag _ hb rfl
          (hinv.count_nonneg bag (mem_of_idx? hb)) ?_
        intro c2 hc2
        simp only at hc2 ⊢
        rcases List.mem_or_eq_of_mem_set hc2 with h2 | h2
        · exact hinv.cover bag (mem_of_idx? hb) c2 h2
        · rw [h2, Comp.len_setAt c c1 r.row v hs]
          rw [List.get?_eq_getElem?] at hc
          obtain ⟨hn, rfl⟩ := List.getElem?_eq_some_iff.1 hc
          exact hinv.cover bag (mem_of_idx? hb) _ (List.getElem_mem hn)

/-- Every store the package can build satisfies the invariant. -/
theorem Entities.Reachable.inv {e : Entities} (h : e.Reachable) : e.Inv := by
  induction h with
  | init => exact Inv_newEntities
  | New _ hnew ih => exact Iter.New_inv _ _ _ _ ih hnew
  | Remove _ hpos hrem ih => exact Iter.Remove_inv _ _ _ _ ih hpos hrem
  | store _ _ _ _ hst ih => exact Entities.store_inv _ _ _ _ ih hst

/-! ## Creation -/


theorem eq_of_div_mod_eight (a b : Nat) (h1 : a / 8 = b / 8) (h2 : a % 8 = b % 8) : a = b := by
  omega

theorem getD_set {α : Type} (l : List α) (n m : Nat) (a d : α) (hn : n < l.length) :
    (l.set n a).getD m d = if n = m then a else l.getD m d := by
  simp only [List.getD_eq_getElem?_getD, List.getElem?_set]
  by_cases h : n = m
  · subst h; simp [hn]
  · simp [h]

/-- Effect of `Require`: it succeeds for a key within the signature's bits, sets that bit
and leaves the other bits, the bag index and the row as they were. -/
theorem Iter.Require_spec (iter : Iter) (k : CompKey) (hk : k < compsKeyLen * compsKeyUnitSize) :
    ∃ iter1, iter.Require k = .ok iter1 ∧ iter1.i = iter.i ∧ iter1.j = iter.j ∧
      ∀ k1, k1 < compsKeyLen * compsKeyUnitSize →
        (inRequirement iter1.requirements k1 = .ok true ↔
          k1 = k ∨ inRequirement iter.requirements k1 = .ok true) := by
  have hw : k / compsKeyUnitSize < iter.requirements.units.length := by
    rw [iter.requirements.size_eq]; exact Nat.div_lt_of_lt_mul (by rw [Nat.mul_comm]; exact hk)
  have hget : iter.requirements.units.get? (k / compsKeyUnitSize)
      = some (iter.requirements.units.getD (k / compsKeyUnitSize) 0) := by
    rw [List.get?_eq_getElem?, List.getElem?_eq_getElem hw, List.getD_eq_getElem _ _ hw]
  refine ⟨{ iter with
      requirements := iter.requirements.setUnit (k / compsKeyUnitSize)
        (iter.requirements.units.getD (k / compsKeyUnitSize) 0
          ||| (1 <<< (k % compsKeyUnitSize))) },
    by simp only [Iter.Require, hget], rfl, rfl, ?_⟩
  intro k1 hk1
  rw [inRequirement_eq _ k1 hk1, inRequirement_eq _ k1 hk1]
  simp only [Except.ok.injEq, compsKey.setUnit, getD_set _ _ _ _ _ hw]
  have h8 : compsKeyUnitSize = 8 := rfl
  by_cases hsame : k / compsKeyUnitSize = k1 / compsKeyUnitSize
  · rw [if_pos hsame, ← hsame, Nat.one_shiftLeft]
    have : (256 : Nat) = 2 ^ 8 := rfl
    rw [this, Nat.testBit_mod_two_pow, Nat.testBit_or, Nat.testBit_two_pow]
    have hlt : k1 % compsKeyUnitSize < 8 := by rw [h8]; exact Nat.mod_lt _ (by decide)
    simp only [hlt, decide_True, Bool.true_and, Bool.or_eq_true, decide_eq_true_eq]
    constructor
    · rintro (h | h)
      · right; exact h
      · left; exact (eq_of_div_mod_eight k k1 hsame h).symm
    · rintro (h | h)
      · right; rw [h]
      · left; exact h
  · rw [if_neg hsame]
    constructor
    · intro h; right; exact h
    · rintro (h | h)
      · subst h; exact absurd rfl hsame
      · exact h

theorem inRequirement_zero (k : CompKey) (hk : k < compsKeyLen * compsKeyUnitSize) :
    inRequirement compsKey.zero k = .ok false := by
  rw [inRequirement_eq _ k hk]
  have : compsKey.zero.units.getD (k / compsKeyUnitSize) 0 = 0 := by
    simp only [compsKey.zero]
    by_cases hw : k / compsKeyUnitSize < compsKeyLen
    · rw [List.getD_eq_getElem _ _ (by simpa using hw)]; simp
    · rw [List.getD_eq_default _ _ (by simpa using hw)]
  rw [this]; simp


theorem key_lt_bits {k : CompKey} (h : k < doNotMoveOrUseLastKeyForNumberOfKeys) :
    k < compsKeyLen * compsKeyUnitSize :=
  Nat.lt_of_lt_of_le h (by decide)

/-- A fresh iterator driven to exhaustion visits `e.visits` of its requirement. -/
theorem drive_fresh (e : Entities) (iter : Iter) (hi : iter.i = -1) (fuel : Nat)
    (hf : (e.visits iter.requirements).length < fuel) :
    Iter.drive e fuel iter = .ok (e.visits iter.requirements) := by
  have hrem : e.remaining iter = e.visits iter.requirements := by
    simp [Entities.remaining, Entities.visits, hi]
  rw [← hrem]
  exact drive_spec e _ iter (Or.inl hi) rfl fuel (by rw [hrem]; exact hf)

/-- Where `New` puts the new entity, on a store that satisfies the invariant. -/
theorem Iter.New_position (e : Entities) (iter : Iter) (hinv : e.Inv) :
    ∃ e1 iter1 bag, Iter.New e iter = .ok (e1, iter1) ∧ e1.Inv ∧
      iter1.requirements = iter.requirements ∧
      idx? e1.bags iter1.i = some bag ∧ bag.compsKey = iter.requirements ∧
      0 ≤ iter1.j ∧ bag.count = iter1.j + 1 ∧
      e1.bagsByKey.get? iter.requirements = some iter1.i ∧
      (e.bagsByKey.get? iter.requirements = some iter1.i ∧ e1.bags.length = e.bags.length ∧
          (∃ bag0, idx? e.bags iter1.i = some bag0 ∧ bag0.count = iter1.j)
        ∨ e.bagsByKey.get? iter.requirements = none ∧ iter1.i = e.bags.length ∧
          e1.bags.length = e.bags.length + 1 ∧ iter1.j = 0) ∧
      (∀ k, k ≠ iter1.i → k < e.bags.length → idx? e1.bags k = idx? e.bags k) := by
  obtain ⟨i, bag0, e0, hcase, hinv0, hb, hk, hmap, hnew⟩ := Iter.New_spec e iter hinv
  have hc0 := hinv0.count_nonneg bag0 (mem_of_idx? hb)
  refine ⟨_, _, bag0.Add.1, hnew, Iter.New_inv _ _ _ _ hinv hnew, rfl,
    idx?_setIdx_self _ _ _ _ hb, hk, hc0, rfl, hmap, ?_, ?_⟩
  · rcases hcase with ⟨h1, h2⟩ | ⟨h1, h2, h3, h4⟩
    · subst h2
      exact Or.inl ⟨h1, by simp [length_setIdx], bag0, hb, rfl⟩
    · subst h4
      exact Or.inr ⟨h1, h2, by simp [length_setIdx], h3⟩
  · intro k hk1 hk2
    simp only at hk1 ⊢
    rw [idx?_setIdx_ne _ _ _ _ _ hb hk1]
    rcases hcase with ⟨_, h2⟩ | ⟨_, _, _, h4⟩
    · rw [h2]
    · subst h4
      simp only
      by_cases hk0 : 0 ≤ k
      · obtain ⟨b, hb1⟩ := idx?_eq_some_of_lt e.bags k hk0 hk2
        rw [hb1]; exact idx?_append_of_some _ _ _ _ hb1
      · simp [idx?, hk0]

/-- Claim C8 (exact-signature creation): on a store the package can build, for keys
`A`, `B`, `C` below the key count with `C` different from `A` and `B`, a fresh iterator
doing `Require(A); Require(B); New()` lands on a row of a bag whose signature has exactly
the bits `A` and `B`; a fresh iterator requiring `A`, driven by `Next`, visits that row,
and a fresh iterator requiring `A` and `C` does not. -/
theorem C8_exact_signature_creation (e : Entities) (hreach : e.Reachable) (A B C : CompKey)
    (hA : A < doNotMoveOrUseLastKeyForNumberOfKeys)
    (hB : B < doNotMoveOrUseLastKeyForNumberOfKeys)
    (hC : C < doNotMoveOrUseLastKeyForNumberOfKeys) (hCA : C ≠ A) (hCB : C ≠ B) :
    ∃ itA itAB e1 it1 bag itQ itQC,
      e.NewIter.Require A = .ok itA ∧ itA.Require B = .ok itAB ∧
      Iter.New e itAB = .ok (e1, it1) ∧
      idx? e1.bags it1.i = some bag ∧ 0 ≤ it1.j ∧ it1.j < bag.count ∧
      (∀ k, k < compsKeyLen * compsKeyUnitSize →
        (inRequirement bag.compsKey k = .ok true ↔ k = A ∨ k = B)) ∧
      e1.NewIter.Require A = .ok itQ ∧
      (∀ fuel, (e1.visits itQ.requirements).length < fuel →
        Iter.drive e1 fuel itQ = .ok (e1.visits itQ.requirements)) ∧
      (it1.i, it1.j) ∈ e1.visits itQ.requirements ∧
      itQ.Require C = .ok itQC ∧
      (∀ fuel, (e1.visits itQC.requirements).length < fuel →
        Iter.drive e1 fuel itQC = .ok (e1.visits itQC.requirements)) ∧
      (it1.i, it1.j) ∉ e1.visits itQC.requirements := by
  obtain ⟨itA, hitA, hAi, _, hAbits⟩ := Iter.Require_spec e.NewIter A (key_lt_bits hA)
  obtain ⟨itAB, hitAB, _, _, hABbits⟩ := Iter.Require_spec itA B (key_lt_bits hB)
  obtain ⟨itQC, hitQC, hQCi, _, hQCbits⟩ := Iter.Require_spec itA C (key_lt_bits hC)
  obtain ⟨e1, it1, bag, hnew, _, _, hbag, hkey, hj0, hcount, _⟩ :=
    Iter.New_position e itAB hreach.inv
  have hzero : ∀ k, k < compsKeyLen * compsKeyUnitSize →
      ¬ inRequirement e.NewIter.requirements k = .ok true := by
    intro k hk
    show ¬ inRequirement compsKey.zero k = .ok true
    rw [inRequirement_zero k hk]; simp
  have hbits : ∀ k, k < compsKeyLen * compsKeyUnitSize →
      (inRequirement bag.compsKey k = .ok true ↔ k = A ∨ k = B) := by
    intro k hk
    rw [hkey, hABbits k hk, hAbits k hk]
    constructor
    · rintro (h | h | h)
      · exact Or.inr h
      · exact Or.inl h
      · exact absurd h (hzero k hk)
    · rintro (h | h)
      · exact Or.inr (Or.inl h)
      · exact Or.inl h
  refine ⟨itA, itAB, e1, it1, bag, itA, itQC, hitA, hitAB, hnew, hbag, hj0, by omega, hbits,
    hitA, fun fuel hf => drive_fresh e1 itA hAi fuel hf, ?_, hitQC,
    fun fuel hf => drive_fresh e1 itQC (by rw [hQCi]; exact hAi) fuel hf, ?_⟩
  · rw [mem_visits_keys]
    refine ⟨bag, hbag, ?_, hj0, by omega⟩
    intro k hk hreq
    rw [hbits k hk]
    rcases (hAbits k hk).1 hreq with h | h
    · exact Or.inl h
    · exact absurd h (hzero k hk)
  · rw [mem_visits_keys]
    rintro ⟨bag1, hbag1, hmeets, _⟩
    rw [hbag] at hbag1
    obtain rfl := Option.some.inj hbag1
    have hCreq : inRequirement itQC.requirements C = .ok true :=
      (hQCbits C (key_lt_bits hC)).2 (Or.inl rfl)
    have := (hbits C (key_lt_bits hC)).1 (hmeets C (key_lt_bits hC) hCreq)
    rcases this with h | h
    · exact hCA h
    · exact hCB h


/-- Witness for C8: the empty store with `A = PosKey`, `B = SpriteKey`, `C = RotKey`. -/
theorem C8_exact_signature_creation_witness :
    (newEntities.Reachable ∧ PosKey < doNotMoveOrUseLastKeyForNumberOfKeys ∧
      SpriteKey < doNotMoveOrUseLastKeyForNumberOfKeys ∧
      RotKey < doNotMoveOrUseLastKeyForNumberOfKeys ∧ RotKey ≠ PosKey ∧ RotKey ≠ SpriteKey)
    ∧ ∃ itA itAB e1 it1 bag,
        newEntities.NewIter.Require PosKey = .ok itA ∧ itA.Require SpriteKey = .ok itAB ∧
        Iter.New newEntities itAB = .ok (e1, it1) ∧ idx? e1.bags it1.i = some bag ∧
        (inRequirement bag.compsKey RotKey = .ok true ↔ RotKey = PosKey ∨ RotKey = SpriteKey) :=
  ⟨⟨Entities.Reachable.init, by decide, by decide, by decide, by decide, by decide⟩,
    match C8_exact_signature_creation newEntities Entities.Reachable.init PosKey SpriteKey RotKey
        (by decide) (by decide) (by decide) (by decide) (by decide) with
    | ⟨itA, itAB, e1, it1, bag, _, _, h1, h2, h3, h4, _, _, h5, _⟩ =>
      ⟨itA, itAB, e1, it1, bag, h1, h2, h3, h4, h5 RotKey (by decide)⟩⟩

/-- Claim C9 (idempotent archetype creation): on a store the package can build, when two
iterators with the same requirement call `New` one after the other, both end at the same
bag index; the first call appends at most one bag and the second none; the bag's count
is 2 more than before the two calls (0 if the bag did not exist), the two entities are
at consecutive rows, and a query over the requirement visits both. -/
theorem C9_idempotent_archetype_creation (e : Entities) (hreach : e.Reachable)
    (itX itY : Iter) (hreq : itY.requirements = itX.requirements) :
    ∃ e1 itX1 e2 itY1 bag2,
      Iter.New e itX = .ok (e1, itX1) ∧ Iter.New e1 itY = .ok (e2, itY1) ∧
      itY1.i = itX1.i ∧
      e.bags.length ≤ e1.bags.length ∧ e1.bags.length ≤ e.bags.length + 1 ∧
      e2.bags.length = e1.bags.length ∧
      idx? e2.bags itX1.i = some bag2 ∧ bag2.compsKey = itX.requirements ∧
      bag2.count = (match idx? e.bags itX1.i with
                    | some bag => bag.count
                    | none => 0) + 2 ∧
      itY1.j = itX1.j + 1 ∧
      (itX1.i, itX1.j) ∈ e2.visits itX.requirements ∧
      (itY1.i, itY1.j) ∈ e2.visits itX.requirements ∧
      ∀ fuel, (e2.visits itX.requirements).length < fuel →
        Iter.drive e2 fuel (e2.NewIterWith itX.requirements)
          = .ok (e2.visits itX.requirements) := by
  obtain ⟨e1, itX1, bag1, hnew1, hinv1, _, hbag1, hkey1, hj1, hcount1, hmap1, hcase1, _⟩ :=
    Iter.New_position e itX hreach.inv
  obtain ⟨e2, itY1, bag2, hnew2, _, _, hbag2, hkey2, hj2, hcount2, _, hcase2, _⟩ :=
    Iter.New_position e1 itY hinv1
  rw [hreq] at hcase2 hkey2
  rcases hcase2 with ⟨hfound, hlen2, bag0, hbag0, hc0⟩ | ⟨hnone, _⟩
  · rw [hmap1] at hfound
    have hi : itY1.i = itX1.i := (Option.some.inj hfound).symm
    rw [hi] at hbag0 hbag2
    rw [hbag1] at hbag0
    obtain rfl := Option.some.inj hbag0
    have hjY : itY1.j = itX1.j + 1 := by omega
    have hmeets : ∀ k, k < compsKeyLen * compsKeyUnitSize →
        inRequirement itX.requirements k = .ok true →
        inRequirement bag2.compsKey k = .ok true := by
      intro k _ h; rw [hkey2]; exact h
    refine ⟨e1, itX1, e2, itY1, bag2, hnew1, hnew2, hi, ?_, ?_, hlen2, hbag2, hkey2, ?_, hjY,
      ?_, ?_, ?_⟩
    · rcases hcase1 with ⟨_, h, _⟩ | ⟨_, _, h, _⟩ <;> omega
    · rcases hcase1 with ⟨_, h, _⟩ | ⟨_, _, h, _⟩ <;> omega
    · rcases hcase1 with ⟨_, _, bag00, hb00, hc00⟩ | ⟨_, h, _, hj⟩
      · rw [hb00]; simp only; omega
      · rw [h, idx?_length]; simp only; omega
    · rw [mem_visits_keys]
      exact ⟨bag2, hbag2, hmeets, hj1, by omega⟩
    · rw [mem_visits_keys, hi]
      exact ⟨bag2, hbag2, hmeets, hj2, by omega⟩
    · intro fuel hf
      exact drive_fresh e2 (e2.NewIterWith itX.requirements) rfl fuel hf
  · rw [hmap1] at hnone
    simp at hnone

/-- Witness for C9: the empty store and two fresh iterators with no requirement. -/
theorem C9_idempotent_archetype_creation_witness :
    (newEntities.Reachable ∧
      newEntities.NewIter.requirements = newEntities.NewIter.requirements)
    ∧ ∃ e1 itX1 e2 itY1,
        Iter.New newEntities newEntities.NewIter = .ok (e1, itX1) ∧
        Iter.New e1 newEntities.NewIter = .ok (e2, itY1) ∧ itY1.i = itX1.i ∧
        itY1.j = itX1.j + 1 :=
  ⟨⟨Entities.Reachable.init, rfl⟩,
    match C9_idempotent_archetype_creation newEntities Entities.Reachable.init
        newEntities.NewIter newEntities.NewIter rfl with
    | ⟨e1, itX1, e2, itY1, _, h1, h2, h3, _, _, _, _, _, _, h4, _⟩ =>
      ⟨e1, itX1, e2, itY1, h1, h2, h3, h4⟩⟩

/-! ## Vector addition -/

/-- Claim C17 fails on the code: `vec2.Add` multiplies the second components.  On
`v = o = (0, 1)` it returns `(0, 1)`, where component-wise addition, and `AddEqual`,
give `(0, 2)`. -/
theorem C17_vec2_Add_multiplies_second_component :
    vec2.Add ⟨0, 1⟩ ⟨0, 1⟩ = ⟨0, 1⟩ ∧ vec2.AddEqual ⟨0, 1⟩ ⟨0, 1⟩ = ⟨0, 2⟩
      ∧ vec2.Add ⟨0, 1⟩ ⟨0, 1⟩ ≠ vec2.AddEqual ⟨0, 1⟩ ⟨0, 1⟩ := by
  norm_num [vec2.Add, vec2.AddEqual]

/-! ## `Require` -/

/-- Claim C14 (`Require` sets exactly one bit): for a key `k` below the key count,
`Require(k)` completes without fault, leaves the bag index and the row unchanged, and
afterwards a key is in the requirement exactly when it is `k` or was in it before (for
every bit position of the signature, so for every key below the key count). -/
theorem C14_require_sets_one_bit (iter : Iter) (k : CompKey)
    (hk : k < doNotMoveOrUseLastKeyForNumberOfKeys) :
    ∃ iter1, iter.Require k = .ok iter1 ∧ iter1.i = iter.i ∧ iter1.j = iter.j ∧
      ∀ k1, k1 < compsKeyLen * compsKeyUnitSize →
        (∃ b, inRequirement iter1.requirements k1 = .ok b) ∧
        (inRequirement iter1.requirements k1 = .ok true ↔
          k1 = k ∨ inRequirement iter.requirements k1 = .ok true) := by
  obtain ⟨iter1, h1, h2, h3, h4⟩ := Iter.Require_spec iter k (key_lt_bits hk)
  exact ⟨iter1, h1, h2, h3, fun k1 hk1 => ⟨⟨_, inRequirement_eq _ k1 hk1⟩, h4 k1 hk1⟩⟩

/-- Witness for C14: `Require(SpriteKey)` on a fresh iterator. -/
theorem C14_require_sets_one_bit_witness :
    SpriteKey < doNotMoveOrUseLastKeyForNumberOfKeys
    ∧ ∃ iter1, newEntities.NewIter.Require SpriteKey = .ok iter1 ∧ iter1.i = -1 ∧ iter1.j = -1 ∧
        (inRequirement iter1.requirements SpriteKey = .ok true) ∧
        ¬ (inRequirement iter1.requirements PosKey = .ok true) :=
  ⟨by decide,
    match C14_require_sets_one_bit newEntities.NewIter SpriteKey (by decide) with
    | ⟨iter1, h1, h2, h3, h4⟩ =>
      ⟨iter1, h1, h2, h3, ((h4 SpriteKey (by decide)).2).2 (Or.inl rfl),
        fun h => by
          rcases ((h4 PosKey (by decide)).2).1 h with h5 | h5
          · exact absurd h5 (by decide)
          · exact absurd h5 (by decide)⟩⟩

/-! ## `EntityBag.Add` -/


theorem idx?_append_ne {α : Type} (c : List α) (a : α) (k : Int) (hk : k ≠ c.length) :
    idx? (c ++ [a]) k = idx? c k := by
  cases h : idx? c k with
  | some b => exact idx?_append_of_some c a b k h
  | none =>
    cases h1 : idx? (c ++ [a]) k with
    | none => rfl
    | some b =>
      rcases idx?_append_cases c a b k h1 with h2 | ⟨h2, _⟩
      · rw [h] at h2; simp at h2
      · exact absurd h2 hk

/-- What `Extend` does to a column. -/
theorem Comp.Extend_spec (c : Comp) :
    c.Extend.len = c.len + 1 ∧ (∀ k : Int, k ≠ c.len → c.Extend.at? k = c.at? k) ∧
      c.Extend.at? c.len = some c.defaultValue := by
  refine ⟨Comp.len_Extend c, ?_, ?_⟩
  · intro k hk
    cases c <;>
      simp only [Comp.Extend, Comp.at?, Comp.len, Vec2Comp.Extend, SpriteComp.Extend,
        FloatComp.Extend] at hk ⊢ <;>
      rw [idx?_append_ne _ _ _ hk]
  · cases c <;>
      simp only [Comp.Extend, Comp.at?, Comp.len, Vec2Comp.Extend, SpriteComp.Extend,
        FloatComp.Extend, idx?_append_length, Comp.defaultValue, Option.map_some']

/-- Claim C12 (`EntityBag.Add` postcondition): on a bag whose columns all have the same
length, `Add` returns the count before the call, increases the count by one, appends one
default value to every column and changes no other element, leaves the signature and
the typed fields as they were, and the columns still all have the same length. -/
theorem C12_add_postcondition (b : EntityBag) (h : b.ColumnsEqual) :
    b.Add.2 = b.count ∧ b.Add.1.count = b.count + 1 ∧ b.Add.1.compsKey = b.compsKey ∧
      List.Forall₂ (fun c c1 => c1.len = c.len + 1 ∧
          (∀ k : Int, k ≠ c.len → c1.at? k = c.at? k) ∧ c1.at? c.len = some c.defaultValue)
        b.comps b.Add.1.comps ∧
      b.Add.1.ColumnsEqual := by
  refine ⟨rfl, rfl, rfl, ?_, ?_⟩
  · simp only [EntityBag.Add, List.forall₂_map_right_iff, List.forall₂_same]
    intro c _
    exact Comp.Extend_spec c
  · intro c hc c1 hc1
    simp only [EntityBag.Add, List.mem_map] at hc hc1
    obtain ⟨c0, hc0, rfl⟩ := hc
    obtain ⟨c2, hc2, rfl⟩ := hc1
    rw [Comp.len_Extend, Comp.len_Extend, h c0 hc0 c2 hc2]

/-- Witness for C12: `Add` on the bag `threeRows`. -/
theorem C12_add_postcondition_witness :
    threeRows.ColumnsEqual
    ∧ threeRows.Add.2 = 3 ∧ threeRows.Add.1.count = 4 ∧ threeRows.Add.1.ColumnsEqual
    ∧ threeRows.Add.1.row 3 = [some (.vec2 vec2.zero), some (.sprite SpriteUnset)] :=
  ⟨by decide,
    (C12_add_postcondition threeRows (by decide)).1,
    (C12_add_postcondition threeRows (by decide)).2.1,
    (C12_add_postcondition threeRows (by decide)).2.2.2.2,
    by decide⟩

/-! ## Archetype construction -/


/-- What `newEntityBag` builds, in a form that is checked case by case. -/
theorem newEntityBag_cases (key : compsKey) :
    ∃ bag, newEntityBag key = .ok bag ∧ bag.count = 0 ∧ bag.compsKey = key ∧
      bag.comps = (dataKeys.filter fun k => decide (inRequirement key k = .ok true)).map
        emptyColumn ∧
      (∀ k ∈ dataKeys, (bag.fieldOf k).isSome = true ↔ inRequirement key k = .ok true) ∧
      (∀ k ∈ dataKeys, (bag.fieldOf k).isSome = true →
        (bag.fieldOf k).bind bag.comps.get? = some (emptyColumn k)) ∧
      (∀ k ∈ dataKeys, ∀ k1 ∈ dataKeys, (bag.fieldOf k).isSome = true →
        bag.fieldOf k = bag.fieldOf k1 → k = k1) := by
  have h0 := inRequirement_eq key PosKey (by decide)
  have h1 := inRequirement_eq key SpriteKey (by decide)
  have h2 := inRequirement_eq key RotKey (by decide)
  have h3 := inRequirement_eq key TimedDestroyKey (by decide)
  have h4 := inRequirement_eq key MomentumKey (by decide)
  have h5 := inRequirement_eq key SpinKey (by decide)
  unfold newEntityBag
  simp only [dataKeys, List.forall_mem_cons, List.filter_cons, List.filter_nil,
    List.not_mem_nil, false_implies, implies_true, and_true]
  rw [h0, h1, h2, h3, h4, h5]
  generalize (key.units.getD (PosKey / compsKeyUnitSize) 0).testBit (PosKey % compsKeyUnitSize) = b0
  generalize (key.units.getD (SpriteKey / compsKeyUnitSize) 0).testBit (SpriteKey % compsKeyUnitSize) = b1
  generalize (key.units.getD (RotKey / compsKeyUnitSize) 0).testBit (RotKey % compsKeyUnitSize) = b2
  generalize (key.units.getD (TimedDestroyKey / compsKeyUnitSize) 0).testBit (TimedDestroyKey % compsKeyUnitSize) = b3
  generalize (key.units.getD (MomentumKey / compsKeyUnitSize) 0).testBit (MomentumKey % compsKeyUnitSize) = b4
  generalize (key.units.getD (SpinKey / compsKeyUnitSize) 0).testBit (SpinKey % compsKeyUnitSize) = b5
  cases b0 <;> cases b1 <;> cases b2 <;> cases b3 <;> cases b4 <;> cases b5 <;>
    (refine ⟨_, rfl, rfl, rfl, rfl, ?_, ?_, ?_⟩ <;> dsimp only [EntityBag.fieldOf] <;>
      repeat' apply And.intro) <;> decide


/-- Claim C13 (archetype construction): `newEntityBag(S)` returns a bag with count 0 and
signature `S` whose columns are one empty column, of the key's column type, for each
data-bearing key whose bit is set in `S`, in key order, and no other (so tag bits add no
column and the number of columns is the number of data-bearing bits set); the typed field
of a data-bearing key is non-nil exactly when its bit is set, it then points at that
key's own column, and the typed field of a tag key does not exist. -/
theorem C13_archetype_construction (S : compsKey) :
    ∃ bag, newEntityBag S = .ok bag ∧ bag.count = 0 ∧ bag.compsKey = S ∧
      bag.comps = (dataKeys.filter fun k => decide (inRequirement S k = .ok true)).map
        emptyColumn ∧
      bag.comps.length
        = (dataKeys.filter fun k => decide (inRequirement S k = .ok true)).length ∧
      (∀ c ∈ bag.comps, c.len = 0) ∧
      (∀ k ∈ dataKeys, (bag.fieldOf k).isSome = true ↔ inRequirement S k = .ok true) ∧
      (∀ k ∈ dataKeys, ∀ p, bag.fieldOf k = some p →
        bag.comps.get? p = some (emptyColumn k)) ∧
      (∀ k ∈ dataKeys, ∀ k1 ∈ dataKeys, ∀ p, bag.fieldOf k = some p →
        bag.fieldOf k1 = some p → k = k1) ∧
      (∀ k ∈ tagKeys, bag.fieldOf k = none) := by
  obtain ⟨bag, h1, h2, h3, h4, h5, h6, h7⟩ := newEntityBag_cases S
  refine ⟨bag, h1, h2, h3, h4, by rw [h4, List.length_map], ?_, h5, ?_, ?_, ?_⟩
  · intro c hc
    rw [h4, List.mem_map] at hc
    obtain ⟨k, _, rfl⟩ := hc
    unfold emptyColumn
    split_ifs <;> rfl
  · intro k hk p hp
    have := h6 k hk (by rw [hp]; rfl)
    rw [hp] at this
    exact this
  · intro k hk k1 hk1 p hp hp1
    exact h7 k hk k1 hk1 (by rw [hp]; rfl) (by rw [hp, hp1])
  · intro k hk
    simp only [tagKeys, List.mem_cons, List.mem_singleton, List.not_mem_nil, or_false] at hk
    rcases hk with rfl | rfl | rfl <;> rfl

/-! ## Bag-level invariants of reachable stores -/


theorem Comp.sameKind_trans {a b c : Comp} (h1 : a.sameKind b = true) (h2 : b.sameKind c = true) :
    a.sameKind c = true := by
  cases a <;> cases b <;> cases c <;> simp_all [Comp.sameKind]

theorem Comp.sameKind_Extend (c : Comp) : c.Extend.sameKind c = true := by
  cases c <;> rfl

theorem sliceSwap_length {α : Type} (c c1 : List α) (i j : Int) (h : sliceSwap c i j = .ok c1) :
    c1.length = c.length := by
  unfold sliceSwap at h
  split at h
  · simp only [Except.ok.injEq] at h
    rw [← h]; simp [length_setIdx]
  · simp at h

theorem Comp.Swap_inv (c c1 : Comp) (i j : Int) (h : c.Swap i j = .ok c1) :
    c1.len = c.len ∧ c1.sameKind c = true := by
  cases c with
  | vec2s l =>
    simp only [Comp.Swap, Vec2Comp.Swap, Except.map] at h
    split at h
    · simp at h
    · rename_i l1 hl
      simp only [Except.ok.injEq] at h
      rw [← h]
      exact ⟨sliceSwap_length _ _ _ _ hl, rfl⟩
  | sprites l =>
    simp only [Comp.Swap, SpriteComp.Swap, Except.map] at h
    split at h
    · simp at h
    · rename_i l1 hl
      simp only [Except.ok.injEq] at h
      rw [← h]
      exact ⟨sliceSwap_length _ _ _ _ hl, rfl⟩
  | floats l =>
    simp only [Comp.Swap, FloatComp.Swap, Except.map] at h
    split at h
    · simp at h
    · rename_i l1 hl
      simp only [Except.ok.injEq] at h
      rw [← h]
      exact ⟨sliceSwap_length _ _ _ _ hl, rfl⟩

theorem swapAll_inv (count i : Int) :
    ∀ (cs cs1 : List Comp), EntityBag.swapAll count i cs = .ok cs1 →
      List.Forall₂ (fun c c1 => c1.len = c.len ∧ c1.sameKind c = true) cs cs1 := by
  intro cs
  induction cs with
  | nil =>
    intro cs1 h
    simp only [EntityBag.swapAll, Except.ok.injEq] at h
    rw [← h]; exact List.Forall₂.nil
  | cons c cs ih =>
    intro cs1 h
    simp only [EntityBag.swapAll] at h
    cases hc : c.Swap count i with
    | error f => rw [hc] at h; simp at h
    | ok c1 =>
      rw [hc] at h
      simp only at h
      cases hcs : EntityBag.swapAll count i cs with
      | error f => rw [hcs] at h; simp at h
      | ok cs2 =>
        rw [hcs] at h
        simp only [Except.ok.injEq] at h
        rw [← h]
        exact List.Forall₂.cons (Comp.Swap_inv c c1 count i hc) (ih cs2 hcs)

theorem Comp.setAt_inv (c c1 : Comp) (j : Int) (v : Value) (h : c.setAt j v = .ok c1) :
    c1.len = c.len ∧ c1.sameKind c = true := by
  refine ⟨Comp.len_setAt c c1 j v h, ?_⟩
  cases c <;> cases v <;> simp only [Comp.setAt] at h <;>
    first
    | (split at h
       · simp only [Except.ok.injEq] at h
         rw [← h]; rfl
       · simp at h)
    | simp at h

theorem forall₂_set {α : Type} {R : α → α → Prop} (hrefl : ∀ a, R a a) (l : List α) (p : Nat)
    (a a1 : α) (hp : l.get? p = some a) (h : R a a1) : List.Forall₂ R l (l.set p a1) := by
  induction l generalizing p with
  | nil => simp at hp
  | cons x l ih =>
    cases p with
    | zero =>
      simp only [List.get?_cons_zero, Option.some.injEq] at hp
      subst hp
      exact List.Forall₂.cons h (List.forall₂_same.2 (fun a _ => hrefl a))
    | succ p =>
      exact List.Forall₂.cons (hrefl x) (ih p (by simpa using hp))

/-- What a successful `Iter.New` did. -/
theorem Iter.New_inversion (e e1 : Entities) (iter iter1 : Iter)
    (h : Iter.New e iter = .ok (e1, iter1)) :
    ∃ e0 i bag0, idx? e0.bags i = some bag0 ∧
      e1 = { e0 with bags := setIdx e0.bags i bag0.Add.1 } ∧
      iter1 = { iter with i := i, j := bag0.count } ∧
      ((e.bagsByKey.get? iter.requirements = some i ∧ e0 = e) ∨
        (e.bagsByKey.get? iter.requirements = none ∧ i = e.bags.length ∧
          newEntityBag iter.requirements = .ok bag0 ∧
          e0 = { bags := e.bags ++ [bag0],
                 bagsByKey := e.bagsByKey.set iter.requirements e.bags.length })) := by
  cases hlook : e.bagsByKey.get? iter.requirements with
  | some i =>
    cases hb : idx? e.bags i with
    | none =>
      simp [Iter.New, hlook, hb, bind, Except.bind, pure, Except.pure] at h
    | some bag0 =>
      simp only [Iter.New, hlook, hb, EntityBag.Add, bind, Except.bind, pure, Except.pure,
        Except.ok.injEq, Prod.mk.injEq] at h
      exact ⟨e, i, bag0, hb, h.1.symm, h.2.symm, Or.inl ⟨rfl, rfl⟩⟩
  | none =>
    cases hnew : newEntityBag iter.requirements with
    | error f =>
      simp [Iter.New, hlook, hnew, bind, Except.bind, pure, Except.pure] at h
    | ok bag0 =>
      simp only [Iter.New, hlook, hnew, idx?_append_length, EntityBag.Add, bind, Except.bind,
        pure, Except.pure, Except.ok.injEq, Prod.mk.injEq] at h
      exact ⟨_, e.bags.length, bag0, idx?_append_length _ _, h.1.symm, h.2.symm,
        Or.inr ⟨rfl, rfl, rfl, rfl⟩⟩

/-- What a successful `Iter.Remove` did. -/
theorem Iter.Remove_inversion (e e1 : Entities) (iter iter1 : Iter)
    (h : Iter.Remove e iter = .ok (e1, iter1)) :
    ∃ bag cs1, idx? e.bags iter.i = some bag ∧
      EntityBag.swapAll (bag.count - 1) iter.j bag.comps = .ok cs1 ∧
      e1 = { e with bags := setIdx e.bags iter.i
                      { bag with count := bag.count - 1, comps := cs1 } } ∧
      iter1 = { iter with j := iter.j - 1 } := by
  unfold Iter.Remove at h
  cases hb : idx? e.bags iter.i with
  | none => rw [hb] at h; simp at h
  | some bag =>
    rw [hb] at h
    simp only [EntityBag.Remove] at h
    cases hs : EntityBag.swapAll (bag.count - 1) iter.j bag.comps with
    | error f => rw [hs] at h; simp at h
    | ok cs1 =>
      rw [hs] at h
      simp only [Except.ok.injEq, Prod.mk.injEq] at h
      exact ⟨bag, cs1, rfl, hs, h.1.symm, h.2.symm⟩

/-- What a successful write through a pointer did. -/
theorem Entities.store_inversion (e e1 : Entities) (r : Ref) (v : Value)
    (h : e.store r v = .ok e1) :
    ∃ bag c c1, idx? e.bags r.bag = some bag ∧ bag.comps.get? r.comp = some c ∧
      c.setAt r.row v = .ok c1 ∧
      e1 = { e with bags := setIdx e.bags r.bag { bag with comps := bag.comps.set r.comp c1 } } := by
  unfold Entities.store at h
  cases hb : idx? e.bags r.bag with
  | none => rw [hb] at h; simp at h
  | some bag =>
    rw [hb] at h
    simp only at h
    cases hc : bag.comps.get? r.comp with
    | none => rw [hc] at h; simp at h
    | some c =>
      rw [hc] at h
      simp only at h
      cases hs : c.setAt r.row v with
      | error f => rw [hs] at h; simp at h
      | ok c1 =>
        rw [hs] at h
        simp only [Except.ok.injEq] at h
        exact ⟨bag, c, c1, rfl, hc, hs, h.symm⟩

/-- A property of bags that `newEntityBag` establishes and that `Add` and every
length- and type-preserving change of the columns keep holds of every bag of every
store the package can build. -/
theorem Entities.Reachable.allBags {P : EntityBag → Prop}
    (hnew : ∀ key bag, newEntityBag key = .ok bag → P bag)
    (hadd : ∀ b, P b → P b.Add.1)
    (hupd : ∀ (b : EntityBag) (cs1 : List Comp) (count1 : Int), P b →
      List.Forall₂ (fun c c1 => c1.len = c.len ∧ c1.sameKind c = true) b.comps cs1 →
      P { b with count := count1, comps := cs1 })
    {e : Entities} (h : e.Reachable) : ∀ b ∈ e.bags, P b := by
  induction h with
  | init => intro b hb; simp [newEntities] at hb
  | @New e e1 iter iter1 _ hn ih =>
    obtain ⟨e0, i, bag0, hb0, he1, _, hcase⟩ := Iter.New_inversion e e1 iter iter1 hn
    have hP0 : ∀ b ∈ e0.bags, P b := by
      rcases hcase with ⟨_, h0⟩ | ⟨_, _, hnb, h0⟩
      · rw [h0]; exact ih
      · rw [h0]
        intro b hb
        rcases List.mem_append.1 hb with h1 | h1
        · exact ih b h1
        · rw [List.mem_singleton.1 h1]; exact hnew _ _ hnb
    intro b hb
    rw [he1] at hb
    rcases List.mem_or_eq_of_mem_set hb with h1 | h1
    · exact hP0 b h1
    · rw [h1]; exact hadd bag0 (hP0 bag0 (mem_of_idx? hb0))
  | @Remove e e1 iter iter1 _ _ hr ih =>
    obtain ⟨bag, cs1, hb0, hs, he1, _⟩ := Iter.Remove_inversion e e1 iter iter1 hr
    intro b hb
    rw [he1] at hb
    rcases List.mem_or_eq_of_mem_set hb with h1 | h1
    · exact ih b h1
    · rw [h1]
      exact hupd bag cs1 _ (ih bag (mem_of_idx? hb0)) (swapAll_inv _ _ _ _ hs)
  | @store e e1 iter acc r v _ _ _ _ hst ih =>
    obtain ⟨bag, c, c1, hb0, hc, hs, he1⟩ := Entities.store_inversion e e1 r v hst
    intro b hb
    rw [he1] at hb
    rcases List.mem_or_eq_of_mem_set hb with h1 | h1
    · exact ih b h1
    · rw [h1]
      exact hupd bag _ bag.count (ih bag (mem_of_idx? hb0))
        (forall₂_set (fun a => ⟨rfl, by cases a <;> rfl⟩) bag.comps r.comp c c1 hc
          (Comp.setAt_inv c c1 r.row v hs))

/-! ## Accessors and in-bounds indexing -/


theorem Comp.sameKind_refl (c : Comp) : c.sameKind c = true := by
  cases c <;> rfl

theorem forall₂_get? {α β : Type} {R : α → β → Prop} {l : List α} {l1 : List β}
    (h : List.Forall₂ R l l1) (p : Nat) (a : α) (hp : l.get? p = some a) :
    ∃ b, l1.get? p = some b ∧ R a b := by
  induction h generalizing p with
  | nil => simp at hp
  | cons hab _ ih =>
    cases p with
    | zero =>
      simp only [List.get?_cons_zero, Option.some.injEq] at hp
      subst hp
      exact ⟨_, rfl, hab⟩
    | succ p => exact ih p (by simpa using hp)

theorem forall₂_mem_right {α β : Type} {R : α → β → Prop} {l : List α} {l1 : List β}
    (h : List.Forall₂ R l l1) : ∀ b ∈ l1, ∃ a ∈ l, R a b := by
  induction h with
  | nil => intro b hb; simp at hb
  | cons hab _ ih =>
    intro b hb
    rcases List.mem_cons.1 hb with h1 | h1
    · subst h1; exact ⟨_, List.mem_cons_self _ _, hab⟩
    · obtain ⟨a, ha, hr⟩ := ih b h1
      exact ⟨a, List.mem_cons_of_mem _ ha, hr⟩

theorem mem_of_get? {α : Type} {l : List α} {p : Nat} {a : α} (h : l.get? p = some a) : a ∈ l := by
  rw [List.get?_eq_getElem?] at h
  obtain ⟨hn, rfl⟩ := List.getElem?_eq_some_iff.1 h
  exact List.getElem_mem hn

/-- In every store the package can build, the typed fields agree with the signature. -/
theorem Entities.Reachable.fieldsOK {e : Entities} (h : e.Reachable) :
    ∀ b ∈ e.bags, b.FieldsOK := by
  refine Entities.Reachable.allBags ?_ ?_ ?_ h
  · intro key bag hnew k hk
    obtain ⟨bag1, h1, _, h3, _, h5, h6, _⟩ := newEntityBag_cases key
    rw [hnew] at h1
    obtain rfl := Except.ok.inj h1
    refine ⟨by rw [h3]; exact h5 k hk, ?_⟩
    intro p hp
    have := h6 k hk (by rw [hp]; rfl)
    rw [hp] at this
    exact ⟨_, this, Comp.sameKind_refl _⟩
  · intro b hb k hk
    obtain ⟨h1, h2⟩ := hb k hk
    refine ⟨h1, ?_⟩
    intro p hp
    obtain ⟨c, hc, hkind⟩ := h2 p hp
    refine ⟨c.Extend, ?_, Comp.sameKind_trans (Comp.sameKind_Extend c) hkind⟩
    simp only [EntityBag.Add, List.get?_eq_getElem?, List.getElem?_map] at hc ⊢
    rw [hc]; rfl
  · intro b cs1 count1 hb hcs k hk
    obtain ⟨h1, h2⟩ := hb k hk
    refine ⟨h1, ?_⟩
    intro p hp
    obtain ⟨c, hc, hkind⟩ := h2 p hp
    obtain ⟨c1, hc1, _, hk1⟩ := forall₂_get? hcs p c hc
    exact ⟨c1, hc1, Comp.sameKind_trans hk1 hkind⟩

/-- In every store the package can build, the columns of a bag have the same length. -/
theorem Entities.Reachable.columnsEqual {e : Entities} (h : e.Reachable) :
    ∀ b ∈ e.bags, b.ColumnsEqual := by
  refine Entities.Reachable.allBags ?_ ?_ ?_ h
  · intro key bag hnew c hc c1 hc1
    obtain ⟨bag1, h1, _, _, hlen⟩ := newEntityBag_spec key
    rw [hnew] at h1
    obtain rfl := Except.ok.inj h1
    rw [hlen c hc, hlen c1 hc1]
  · intro b hb c hc c1 hc1
    simp only [EntityBag.Add, List.mem_map] at hc hc1
    obtain ⟨c0, hc0, rfl⟩ := hc
    obtain ⟨c2, hc2, rfl⟩ := hc1
    rw [Comp.len_Extend, Comp.len_Extend, hb c0 hc0 c2 hc2]
  · intro b cs1 count1 hb hcs c hc c1 hc1
    obtain ⟨a, ha, hla, _⟩ := forall₂_mem_right hcs c hc
    obtain ⟨a1, ha1, hla1, _⟩ := forall₂_mem_right hcs c1 hc1
    rw [hla, hla1]
    exact hb a ha a1 ha1

theorem Comp.at?_of_lt (c : Comp) (j : Int) (h0 : 0 ≤ j) (h1 : j < c.len) :
    ∃ v, c.at? j = some v := by
  cases c with
  | vec2s l =>
    obtain ⟨a, ha⟩ := idx?_eq_some_of_lt l j h0 (by simpa [Comp.len] using h1)
    exact ⟨.vec2 a, by simp only [Comp.at?, ha, Option.map_some']⟩
  | sprites l =>
    obtain ⟨a, ha⟩ := idx?_eq_some_of_lt l j h0 (by simpa [Comp.len] using h1)
    exact ⟨.sprite a, by simp only [Comp.at?, ha, Option.map_some']⟩
  | floats l =>
    obtain ⟨a, ha⟩ := idx?_eq_some_of_lt l j h0 (by simpa [Comp.len] using h1)
    exact ⟨.float a, by simp only [Comp.at?, ha, Option.map_some']⟩

/-- What an accessor returns on an iterator at an existing row of a bag whose typed fields
agree with its signature and whose columns hold at least `count` rows. -/
theorem accessor_spec (field : EntityBag → Option Nat) (isType : Comp → Bool) (k : CompKey)
    (hk : k ∈ dataKeys) (hfield : ∀ b : EntityBag, field b = b.fieldOf k)
    (htype : ∀ c : Comp, isType c = c.sameKind (emptyColumn k))
    (e : Entities) (iter : Iter) (bag : EntityBag)
    (hbag : idx? e.bags iter.i = some bag) (hok : bag.FieldsOK) (hcover : bag.ColumnsCover)
    (hj0 : 0 ≤ iter.j) (hj1 : iter.j < bag.count) :
    (Iter.accessor field isType e iter = .ok none ↔
        ¬ inRequirement bag.compsKey k = .ok true) ∧
    (inRequirement bag.compsKey k = .ok true →
      ∃ p c v, bag.fieldOf k = some p ∧ bag.comps.get? p = some c ∧
        Iter.accessor field isType e iter = .ok (some ⟨iter.i, p, iter.j⟩) ∧
        c.at? iter.j = some v ∧ e.load ⟨iter.i, p, iter.j⟩ = some v) ∧
    (∃ r, Iter.accessor field isType e iter = .ok r) := by
  obtain ⟨hbit, hptr⟩ := hok k hk
  cases hf : bag.fieldOf k with
  | none =>
    have hacc : Iter.accessor field isType e iter = .ok none := by
      simp only [Iter.accessor, hbag, hfield, hf]
    have hnot : ¬ inRequirement bag.compsKey k = .ok true := by
      intro h
      have := hbit.2 h
      rw [hf] at this
      simp at this
    exact ⟨⟨fun _ => hnot, fun _ => hacc⟩, fun h => absurd h hnot, ⟨_, hacc⟩⟩
  | some p =>
    obtain ⟨c, hc, hkind⟩ := hptr p hf
    have hlen := hcover c (mem_of_get? hc)
    have hin : 0 ≤ iter.j ∧ iter.j < (c.len : Int) := ⟨hj0, by omega⟩
    have hacc : Iter.accessor field isType e iter = .ok (some ⟨iter.i, p, iter.j⟩) := by
      simp only [Iter.accessor, hbag, hfield, hf, hc, htype, hkind, if_true, hin, and_self]
    have hyes : inRequirement bag.compsKey k = .ok true := hbit.1 (by rw [hf]; rfl)
    obtain ⟨v, hv⟩ := Comp.at?_of_lt c iter.j hj0 hin.2
    refine ⟨⟨fun h => ?_, fun h => absurd hyes h⟩, fun _ => ?_, ⟨_, hacc⟩⟩
    · rw [hacc] at h; simp at h
    · exact ⟨p, c, v, rfl, hc, hacc, hv, by simp only [Entities.load, hbag, hc, hv]⟩


theorem keyedAccessors_shape :
    ∀ ka ∈ Iter.keyedAccessors, ∃ field isType, ka.2 = Iter.accessor field isType ∧
      ka.1 ∈ dataKeys ∧ (∀ b : EntityBag, field b = b.fieldOf ka.1) ∧
      (∀ c : Comp, isType c = c.sameKind (emptyColumn ka.1)) := by
  intro ka hka
  simp only [Iter.keyedAccessors, List.mem_cons, List.mem_singleton, List.not_mem_nil,
    or_false] at hka
  rcases hka with rfl | rfl | rfl | rfl | rfl | rfl
  · exact ⟨EntityBag.Pos, Comp.isVec2Comp, rfl, by decide, fun _ => rfl,
      fun c => by cases c <;> rfl⟩
  · exact ⟨EntityBag.Sprite, Comp.isSpriteComp, rfl, by decide, fun _ => rfl,
      fun c => by cases c <;> rfl⟩
  · exact ⟨EntityBag.Rot, Comp.isFloatComp, rfl, by decide, fun _ => rfl,
      fun c => by cases c <;> rfl⟩
  · exact ⟨EntityBag.TimedDestroy, Comp.isFloatComp, rfl, by decide, fun _ => rfl,
      fun c => by cases c <;> rfl⟩
  · exact ⟨EntityBag.Momentum, Comp.isVec2Comp, rfl, by decide, fun _ => rfl,
      fun c => by cases c <;> rfl⟩
  · exact ⟨EntityBag.Spin, Comp.isFloatComp, rfl, by decide, fun _ => rfl,
      fun c => by cases c <;> rfl⟩

theorem storeAB_reachable : storeAB.Reachable :=
  Entities.Reachable.New
    (Entities.Reachable.New Entities.Reachable.init
      (show Iter.New newEntities ⟨-1, -1, keyPos⟩ = .ok (storeA, ⟨0, 0, keyPos⟩) by decide))
    (show Iter.New storeA ⟨-1, -1, keyPosSprite⟩ = .ok (storeAB, ⟨1, 0, keyPosSprite⟩) by decide)

/-- Claim C11 (accessor presence): in a store the package can build, on an iterator at an
existing row `(i, j)`, the accessor of each data-bearing key returns nil exactly when the
key's bit is not set in the signature of bag `i`; when the bit is set it returns the
pointer to element `j` of the column the bag's typed field for that key points at, and
that element exists. -/
theorem C11_accessor_presence (e : Entities) (hreach : e.Reachable) (iter : Iter)
    (bag : EntityBag) (hbag : idx? e.bags iter.i = some bag)
    (hj0 : 0 ≤ iter.j) (hj1 : iter.j < bag.count) :
    ∀ ka ∈ Iter.keyedAccessors,
      (ka.2 e iter = .ok none ↔ ¬ inRequirement bag.compsKey ka.1 = .ok true) ∧
      (inRequirement bag.compsKey ka.1 = .ok true →
        ∃ p c v, bag.fieldOf ka.1 = some p ∧ bag.comps.get? p = some c ∧
          ka.2 e iter = .ok (some ⟨iter.i, p, iter.j⟩) ∧
          c.at? iter.j = some v ∧ e.load ⟨iter.i, p, iter.j⟩ = some v) := by
  intro ka hka
  obtain ⟨field, isType, hacc, hk, hfield, htype⟩ := keyedAccessors_shape ka hka
  have hmem := mem_of_idx? hbag
  obtain ⟨h1, h2, _⟩ := accessor_spec field isType ka.1 hk hfield htype e iter bag hbag
    (hreach.fieldsOK bag hmem) (hreach.inv.cover bag hmem) hj0 hj1
  rw [hacc]
  exact ⟨h1, h2⟩

/-- Witness for C11: entity A created with `{Pos}` only has `Sprite()` nil and `Pos()`
present; entity B created with `{Pos, Sprite}` has `Sprite()` present. -/
theorem C11_accessor_presence_witness :
    (storeAB.Reachable ∧ idx? storeAB.bags 0 = some bagA ∧ (0 : Int) ≤ 0 ∧ (0 : Int) < bagA.count)
    ∧ (Iter.Sprite storeAB ⟨0, 0, compsKey.zero⟩ = .ok none
      ∧ Iter.Pos storeAB ⟨0, 0, compsKey.zero⟩ = .ok (some ⟨0, 0, 0⟩)
      ∧ Iter.Sprite storeAB ⟨1, 0, compsKey.zero⟩ = .ok (some ⟨1, 1, 0⟩))
    ∧ (Iter.Sprite storeAB ⟨0, 0, compsKey.zero⟩ = .ok none ↔
        ¬ inRequirement bagA.compsKey SpriteKey = .ok true) :=
  ⟨⟨storeAB_reachable, by decide, by decide, by decide⟩, by decide,
    (C11_accessor_presence storeAB storeAB_reachable ⟨0, 0, compsKey.zero⟩ bagA
      (by decide) (by decide) (by decide) (SpriteKey, Iter.Sprite)
      (List.mem_cons_of_mem _ (List.mem_cons_self _ _))).1⟩

/-- Claim C18 (in-bounds indexing): in a store the package can build, every column of
every bag has at least `count` elements and the columns of one bag have the same length;
so on an iterator at an existing row, the row and the last row are inside every column
of its bag, no accessor faults, and `Remove` and each `Swap` it makes complete without
an index out of range. -/
theorem C18_in_bounds_indexing (e : Entities) (hreach : e.Reachable) :
    (∀ b ∈ e.bags, b.ColumnsCover ∧ b.ColumnsEqual) ∧
    ∀ (iter : Iter) (bag : EntityBag), idx? e.bags iter.i = some bag →
      0 ≤ iter.j → iter.j < bag.count →
      (∀ c ∈ bag.comps, iter.j < (c.len : Int) ∧ bag.count - 1 < (c.len : Int)) ∧
      (∀ acc ∈ Iter.accessors, ∃ r, acc e iter = .ok r) ∧
      (∀ c ∈ bag.comps, ∃ c1, c.Swap (bag.count - 1) iter.j = .ok c1) ∧
      (∃ e1 iter1, Iter.Remove e iter = .ok (e1, iter1)) := by
  refine ⟨fun b hb => ⟨hreach.inv.cover b hb, hreach.columnsEqual b hb⟩, ?_⟩
  intro iter bag hbag hj0 hj1
  have hmem := mem_of_idx? hbag
  have hcover := hreach.inv.cover bag hmem
  refine ⟨?_, ?_, ?_, ?_⟩
  · intro c hc
    have := hcover c hc
    exact ⟨by omega, by omega⟩
  · intro acc hacc
    have hk : ∃ ka ∈ Iter.keyedAccessors, ka.2 = acc := by
      have : Iter.accessors = Iter.keyedAccessors.map Prod.snd := rfl
      rw [this, List.mem_map] at hacc
      exact hacc
    obtain ⟨ka, hka, rfl⟩ := hk
    obtain ⟨field, isType, hshape, hk, hfield, htype⟩ := keyedAccessors_shape ka hka
    obtain ⟨_, _, h3⟩ := accessor_spec field isType ka.1 hk hfield htype e iter bag hbag
      (hreach.fieldsOK bag hmem) hcover hj0 hj1
    rw [hshape]
    exact h3
  · intro c hc
    have := hcover c hc
    obtain ⟨c1, h1, _⟩ := Comp.Swap_spec c (bag.count - 1) iter.j (by omega) (by omega) hj0
      (by omega)
    exact ⟨c1, h1⟩
  · obtain ⟨cs1, _, h, _⟩ := Iter.remove_step_spec e iter bag hbag hcover hj0 hj1
    exact ⟨_, _, h⟩

/-- Witness for C18: the store holding entities A and B, and an iterator at B. -/
theorem C18_in_bounds_indexing_witness :
    storeAB.Reachable
    ∧ (∀ b ∈ storeAB.bags, b.ColumnsCover ∧ b.ColumnsEqual)
    ∧ (∃ e1 iter1, Iter.Remove storeAB ⟨1, 0, compsKey.zero⟩ = .ok (e1, iter1)) :=
  ⟨storeAB_reachable, (C18_in_bounds_indexing storeAB storeAB_reachable).1,
    ((C18_in_bounds_indexing storeAB storeAB_reachable).2 ⟨1, 0, compsKey.zero⟩ bagB
      (by decide) (by decide) (by decide)).2.2.2⟩

/-! ## One archetype per signature -/


theorem BagsByKey.get?_eq_none_iff (m : BagsByKey) (k : compsKey) :
    m.get? k = none ↔ k ∉ m.map Prod.fst := by
  induction m with
  | nil => simp [BagsByKey.get?]
  | cons p m ih =>
    obtain ⟨a, b⟩ := p
    by_cases h : a = k
    · simp [BagsByKey.get?, h]
    · have h1 : ¬ k = a := fun h2 => h h2.symm
      simp [BagsByKey.get?, h, h1, ih]

theorem BagsByKey.filter_of_not_mem (m : BagsByKey) (k : compsKey) (h : k ∉ m.map Prod.fst) :
    m.filter (fun p => decide (p.1 ≠ k)) = m := by
  rw [List.filter_eq_self]
  intro p hp
  have : p.1 ≠ k := fun h1 => h (by rw [← h1]; exact List.mem_map_of_mem _ hp)
  simpa using this

/-- In every store the package can build, the map has one entry per bag. -/
theorem Entities.Reachable.mapSize {e : Entities} (h : e.Reachable) :
    (e.bagsByKey.map Prod.fst).Nodup ∧ e.bagsByKey.length = e.bags.length := by
  induction h with
  | init => simp [newEntities]
  | @New e e1 iter iter1 _ hn ih =>
    obtain ⟨e0, i, bag0, _, he1, _, hcase⟩ := Iter.New_inversion e e1 iter iter1 hn
    rw [he1]
    simp only [length_setIdx]
    rcases hcase with ⟨_, h0⟩ | ⟨hnone, _, _, h0⟩
    · rw [h0]; exact ih
    · rw [h0]
      have hnot := (BagsByKey.get?_eq_none_iff _ _).1 hnone
      simp only [BagsByKey.set, BagsByKey.filter_of_not_mem _ _ hnot, List.map_cons,
        List.nodup_cons, List.length_cons, List.length_append, List.length_singleton]
      exact ⟨⟨hnot, ih.1⟩, by simp [ih.2]⟩
  | @Remove e e1 iter iter1 _ _ hr ih =>
    obtain ⟨bag, cs1, _, _, he1, _⟩ := Iter.Remove_inversion e e1 iter iter1 hr
    rw [he1]
    simpa only [length_setIdx] using ih
  | @store e e1 iter acc r v _ _ _ _ hst ih =>
    obtain ⟨bag, c, c1, _, _, _, he1⟩ := Entities.store_inversion e e1 r v hst
    rw [he1]
    simpa only [length_setIdx] using ih


/-- Claim C15 (one archetype per signature): in a store the package can build, the bags
have pairwise distinct signatures, `bagsByKey` maps a signature `S` to `i` exactly when
`i` is an index of `bags` and `bags[i]` has signature `S`, and the map has as many
entries as there are bags. -/
theorem C15_one_archetype_per_signature (e : Entities) (hreach : e.Reachable) :
    (e.bags.map EntityBag.compsKey).Nodup
    ∧ (∀ i1 i2 b1 b2, idx? e.bags i1 = some b1 → idx? e.bags i2 = some b2 →
        b1.compsKey = b2.compsKey → i1 = i2)
    ∧ (∀ S i, e.bagsByKey.get? S = some i ↔
        ∃ bag, idx? e.bags i = some bag ∧ bag.compsKey = S)
    ∧ (e.bagsByKey.map Prod.fst).Nodup
    ∧ e.bagsByKey.length = e.bags.length := by
  have hinv := hreach.inv
  have hinj : ∀ i1 i2 b1 b2, idx? e.bags i1 = some b1 → idx? e.bags i2 = some b2 →
      b1.compsKey = b2.compsKey → i1 = i2 := by
    intro i1 i2 b1 b2 h1 h2 hk
    have g1 := hinv.map_complete i1 b1 h1
    have g2 := hinv.map_complete i2 b2 h2
    rw [hk, g2] at g1
    exact (Option.some.inj g1).symm
  refine ⟨?_, hinj, ?_, hreach.mapSize.1, hreach.mapSize.2⟩
  · rw [List.nodup_iff_getElem?_ne_getElem?]
    intro i j hij hj heq
    simp only [List.length_map] at hj
    have hi : i < e.bags.length := by omega
    simp only [List.getElem?_map, List.getElem?_eq_getElem hi, List.getElem?_eq_getElem hj,
      Option.map_some', Option.some.injEq] at heq
    have := hinj (i : Int) (j : Int) _ _
      (by rw [idx?_nat, List.get?_eq_getElem?, List.getElem?_eq_getElem hi])
      (by rw [idx?_nat, List.get?_eq_getElem?, List.getElem?_eq_getElem hj]) heq
    omega
  · intro S i
    constructor
    · exact hinv.map_sound S i
    · rintro ⟨bag, hb, rfl⟩
      exact hinv.map_complete i bag hb

/-- Witness for C15: the store holding entities A and B. -/
theorem C15_one_archetype_per_signature_witness :
    storeAB.Reachable
    ∧ (storeAB.bags.map EntityBag.compsKey).Nodup
    ∧ storeAB.bagsByKey.length = storeAB.bags.length :=
  ⟨storeAB_reachable, (C15_one_archetype_per_signature storeAB storeAB_reachable).1,
    (C15_one_archetype_per_signature storeAB storeAB_reachable).2.2.2.2⟩

/-! ## Archetypes are never destroyed -/

theorem map_set_same {α β : Type} (f : α → β) (l : List α) (n : Nat) (a v : α)
    (h : l.get? n = some a) (hf : f v = f a) : (l.set n v).map f = l.map f := by
  induction l generalizing n with
  | nil => rfl
  | cons x l ih =>
    cases n with
    | zero =>
      simp only [List.get?_cons_zero, Option.some.injEq] at h
      subst h
      simp [hf]
    | succ n =>
      simp only [List.set_cons_succ, List.map_cons, List.cons.injEq, true_and]
      exact ih n (by simpa using h)

theorem map_setIdx_same {α β : Type} (f : α → β) (l : List α) (i : Int) (a v : α)
    (h : idx? l i = some a) (hf : f v = f a) : (setIdx l i v).map f = l.map f :=
  map_set_same f l i.toNat a v ((idx?_eq_some_iff _ _ _).1 h).2 hf

/-- Claim C16 (archetypes are never destroyed or reordered): in a store the package can
build, `New` completes and the signatures of the bags afterwards are those before, in
the same order, followed by at most one new signature; `Remove` on an iterator at an
existing row completes and leaves the sequence of signatures as it was, whatever the
count it leaves.  (`Require` and `Next` return no store: they do not write it.) -/
theorem C16_archetypes_never_destroyed (e : Entities) (hreach : e.Reachable) :
    (∀ iter : Iter, ∃ e1 iter1 added, Iter.New e iter = .ok (e1, iter1) ∧
      e1.bags.map EntityBag.compsKey = e.bags.map EntityBag.compsKey ++ added ∧
      added.length ≤ 1)
    ∧ (∀ iter : Iter, iter.Positioned e → ∃ e1 iter1, Iter.Remove e iter = .ok (e1, iter1) ∧
      e1.bags.map EntityBag.compsKey = e.bags.map EntityBag.compsKey) := by
  constructor
  · intro iter
    obtain ⟨e1, iter1, _, hnew, _⟩ := Iter.New_position e iter hreach.inv
    obtain ⟨e0, i, bag0, hb0, he1, _, hcase⟩ := Iter.New_inversion e e1 iter iter1 hnew
    have hmap : e1.bags.map EntityBag.compsKey = e0.bags.map EntityBag.compsKey := by
      rw [he1]
      exact map_setIdx_same _ _ _ bag0 _ hb0 rfl
    rcases hcase with ⟨_, h0⟩ | ⟨_, _, _, h0⟩
    · exact ⟨e1, iter1, [], hnew, by rw [hmap, h0, List.append_nil], by simp⟩
    · exact ⟨e1, iter1, [bag0.compsKey], hnew, by rw [hmap, h0]; simp, by simp⟩
  · intro iter hpos
    unfold Iter.Positioned at hpos
    cases hb : idx? e.bags iter.i with
    | none => rw [hb] at hpos; exact absurd hpos (by simp)
    | some bag =>
      rw [hb] at hpos
      simp only at hpos
      obtain ⟨cs1, _, hrem, _⟩ :=
        Iter.remove_step_spec e iter bag hb (hreach.inv.cover bag (mem_of_idx? hb)) hpos.1 hpos.2
      exact ⟨_, _, hrem, map_setIdx_same _ _ _ bag _ hb rfl⟩

/-- Witness for C16: on the store holding entities A and B, `Remove` of B leaves its bag
in place with count 0. -/
theorem C16_archetypes_never_destroyed_witness :
    storeAB.Reachable
    ∧ (Iter.Remove storeAB ⟨1, 0, compsKey.zero⟩).map
        (fun r => (r.1.bags.map EntityBag.count, r.1.bags.map EntityBag.compsKey))
        = .ok ([1, 0], [keyPos, keyPosSprite])
    ∧ (∃ e1 iter1 added, Iter.New storeAB storeAB.NewIter = .ok (e1, iter1) ∧
        e1.bags.map EntityBag.compsKey = storeAB.bags.map EntityBag.compsKey ++ added ∧
        added.length ≤ 1) :=
  ⟨storeAB_reachable, by decide,
    (C16_archetypes_never_destroyed storeAB storeAB_reachable).1 storeAB.NewIter⟩

/-! ## `Require` is idempotent and order-independent -/


theorem eq_of_testBit_lt_eight {a b : Nat} (ha : a < 256) (hb : b < 256)
    (h : ∀ i, i < 8 → a.testBit i = b.testBit i) : a = b := by
  apply Nat.eq_of_testBit_eq
  intro i
  by_cases hi : i < 8
  · exact h i hi
  · have hpow : 2 ^ 8 ≤ 2 ^ i := Nat.pow_le_pow_right (by decide) (by omega)
    have h1 : a.testBit i = false := Nat.testBit_lt_two_pow (Nat.lt_of_lt_of_le ha hpow)
    have h2 : b.testBit i = false := Nat.testBit_lt_two_pow (Nat.lt_of_lt_of_le hb hpow)
    rw [h1, h2]

/-- Two signatures with the same bits are equal. -/
theorem compsKey.ext_bits (A B : compsKey)
    (h : ∀ k, k < compsKeyLen * compsKeyUnitSize →
      (inRequirement A k = .ok true ↔ inRequirement B k = .ok true)) : A = B := by
  have hunits : A.units = B.units := by
    apply List.ext_getElem (by rw [A.size_eq, B.size_eq])
    intro w hwA hwB
    have hw : w < compsKeyLen := by rw [← A.size_eq]; exact hwA
    have e1 := List.getD_eq_getElem A.units 0 hwA
    have e2 := List.getD_eq_getElem B.units 0 hwB
    rw [← e1, ← e2]
    apply eq_of_testBit_lt_eight (compsKey.getD_lt A w) (compsKey.getD_lt B w)
    intro i hi
    have hk : w * 8 + i < compsKeyLen * compsKeyUnitSize := by
      rw [show compsKeyUnitSize = 8 from rfl, show compsKeyLen = 2 from rfl] at *
      omega
    have hh := h (w * 8 + i) hk
    rw [inRequirement_eq _ _ hk, inRequirement_eq _ _ hk] at hh
    have d1 : (w * 8 + i) / compsKeyUnitSize = w := by
      rw [show compsKeyUnitSize = 8 from rfl]; omega
    have d2 : (w * 8 + i) % compsKeyUnitSize = i := by
      rw [show compsKeyUnitSize = 8 from rfl]; omega
    rw [d1, d2] at hh
    simp only [Except.ok.injEq] at hh
    exact Bool.eq_iff_iff.2 hh
  cases A
  cases B
  simp only at hunits
  subst hunits
  rfl

/-- Effect of a sequence of `Require` calls with keys within the signature's bits. -/
theorem Iter.RequireAll_spec :
    ∀ (ks : List CompKey) (iter : Iter), (∀ k ∈ ks, k < compsKeyLen * compsKeyUnitSize) →
      ∃ iter1, iter.RequireAll ks = .ok iter1 ∧ iter1.i = iter.i ∧ iter1.j = iter.j ∧
        ∀ k1, k1 < compsKeyLen * compsKeyUnitSize →
          (inRequirement iter1.requirements k1 = .ok true ↔
            k1 ∈ ks ∨ inRequirement iter.requirements k1 = .ok true) := by
  intro ks
  induction ks with
  | nil =>
    intro iter _
    exact ⟨iter, rfl, rfl, rfl, fun k1 _ => by simp⟩
  | cons k ks ih =>
    intro iter hks
    obtain ⟨it1, h1, hi1, hj1, hb1⟩ := Iter.Require_spec iter k (hks k (List.mem_cons_self _ _))
    obtain ⟨it2, h2, hi2, hj2, hb2⟩ := ih it1 (fun x hx => hks x (List.mem_cons_of_mem _ hx))
    refine ⟨it2, by simp only [Iter.RequireAll, h1, h2], by rw [hi2, hi1], by rw [hj2, hj1], ?_⟩
    intro k1 hk1
    rw [hb2 k1 hk1, hb1 k1 hk1, List.mem_cons]
    constructor
    · rintro (h | h | h)
      · exact Or.inl (Or.inr h)
      · exact Or.inl (Or.inl h)
      · exact Or.inr h
    · rintro ((h | h) | h)
      · exact Or.inr (Or.inl h)
      · exact Or.inl h
      · exact Or.inr (Or.inr h)

/-- `New` reads the iterator's requirement only. -/
theorem Iter.New_congr (e : Entities) (iter iter1 : Iter)
    (h : iter1.requirements = iter.requirements) :
    (Iter.New e iter1).map (fun r => (r.1, r.2.i, r.2.j))
      = (Iter.New e iter).map (fun r => (r.1, r.2.i, r.2.j)) := by
  have h1 : ∀ it : Iter, (Iter.New e it).map (fun r => (r.1, r.2.i, r.2.j))
      = (Iter.New e ⟨0, 0, it.requirements⟩).map (fun r => (r.1, r.2.i, r.2.j)) := by
    intro it
    rfl
  rw [h1 iter1, h1 iter, h]


/-- Two iterators with the same requirement are sent by `New` to the same bag, on the
same store and one after the other. -/
theorem New_same_bag (e : Entities) (hinv : e.Inv) (itX itY : Iter)
    (hreq : itY.requirements = itX.requirements) :
    ∃ e1 x1 y1 e2 y2, Iter.New e itX = .ok (e1, x1) ∧ Iter.New e itY = .ok (e1, y1) ∧
      y1.i = x1.i ∧ y1.j = x1.j ∧ Iter.New e1 itY = .ok (e2, y2) ∧ y2.i = x1.i := by
  obtain ⟨e1, x1, _, hnew1, hinv1, _, _, _, _, _, hmap1, _⟩ := Iter.New_position e itX hinv
  obtain ⟨e2, y2, _, hnew2, _, _, _, _, _, _, _, hcase2, _⟩ := Iter.New_position e1 itY hinv1
  have hsame := Iter.New_congr e itX itY hreq
  rw [hnew1] at hsame
  cases hy : Iter.New e itY with
  | error f => rw [hy] at hsame; simp [Except.map] at hsame
  | ok r =>
    rw [hy] at hsame
    simp only [Except.map, Except.ok.injEq, Prod.mk.injEq] at hsame
    obtain ⟨r1, r2⟩ := r
    simp only at hsame
    obtain ⟨h1, h2, h3⟩ := hsame
    subst h1
    refine ⟨r1, x1, r2, e2, y2, hnew1, rfl, h2, h3, hnew2, ?_⟩
    rw [hreq] at hcase2
    rcases hcase2 with ⟨hfound, _⟩ | ⟨hnone, _⟩
    · rw [hmap1] at hfound
      exact (Option.some.inj hfound).symm
    · rw [hmap1] at hnone
      simp at hnone

/-- Claim C19 (`Require` is idempotent and order-independent): for keys `a`, `b` below the
key count, `Require(a); Require(a)` leaves the requirement `Require(a)` leaves, and
`Require(a); Require(b)` the one `Require(b); Require(a)` leaves; so two fresh iterators
that require the same set of keys, in any order and with any repeats, have the same
requirement and, on a store the package can build, are sent by `New` to the same bag,
whether both start from that store or one calls `New` after the other. -/
theorem C19_require_idempotent_commutative (e : Entities) (hreach : e.Reachable)
    (iter : Iter) (a b : CompKey)
    (ha : a < doNotMoveOrUseLastKeyForNumberOfKeys)
    (hb : b < doNotMoveOrUseLastKeyForNumberOfKeys) :
    (∃ ia iaa iab ib iba, iter.Require a = .ok ia ∧ ia.Require a = .ok iaa ∧
      iaa.requirements = ia.requirements ∧
      ia.Require b = .ok iab ∧ iter.Require b = .ok ib ∧ ib.Require a = .ok iba ∧
      iab.requirements = iba.requirements)
    ∧ (∀ ks ks1 : List CompKey, (∀ k ∈ ks, k < doNotMoveOrUseLastKeyForNumberOfKeys) →
        (∀ k, k ∈ ks ↔ k ∈ ks1) →
        ∃ itX itY e1 x1 y1 e2 y2,
          e.NewIter.RequireAll ks = .ok itX ∧ e.NewIter.RequireAll ks1 = .ok itY ∧
          itY.requirements = itX.requirements ∧
          Iter.New e itX = .ok (e1, x1) ∧ Iter.New e itY = .ok (e1, y1) ∧ y1.i = x1.i ∧
          Iter.New e1 itY = .ok (e2, y2) ∧ y2.i = x1.i) := by
  constructor
  · obtain ⟨ia, h1, _, _, b1⟩ := Iter.Require_spec iter a (key_lt_bits ha)
    obtain ⟨iaa, h2, _, _, b2⟩ := Iter.Require_spec ia a (key_lt_bits ha)
    obtain ⟨iab, h3, _, _, b3⟩ := Iter.Require_spec ia b (key_lt_bits hb)
    obtain ⟨ib, h4, _, _, b4⟩ := Iter.Require_spec iter b (key_lt_bits hb)
    obtain ⟨iba, h5, _, _, b5⟩ := Iter.Require_spec ib a (key_lt_bits ha)
    refine ⟨ia, iaa, iab, ib, iba, h1, h2, ?_, h3, h4, h5, ?_⟩
    · apply compsKey.ext_bits
      intro k hk
      rw [b2 k hk, b1 k hk]
      constructor
      · rintro (h | h)
        · exact Or.inl h
        · exact h
      · exact fun h => Or.inr h
    · apply compsKey.ext_bits
      intro k hk
      rw [b3 k hk, b1 k hk, b5 k hk, b4 k hk]
      constructor
      · rintro (h | h | h)
        · exact Or.inr (Or.inl h)
        · exact Or.inl h
        · exact Or.inr (Or.inr h)
      · rintro (h | h | h)
        · exact Or.inr (Or.inl h)
        · exact Or.inl h
        · exact Or.inr (Or.inr h)
  · intro ks ks1 hks hsame
    have hks1 : ∀ k ∈ ks1, k < doNotMoveOrUseLastKeyForNumberOfKeys :=
      fun k hk => hks k ((hsame k).2 hk)
    obtain ⟨itX, hX, _, _, bX⟩ :=
      Iter.RequireAll_spec ks e.NewIter (fun k hk => key_lt_bits (hks k hk))
    obtain ⟨itY, hY, _, _, bY⟩ :=
      Iter.RequireAll_spec ks1 e.NewIter (fun k hk => key_lt_bits (hks1 k hk))
    have hreq : itY.requirements = itX.requirements := by
      apply compsKey.ext_bits
      intro k hk
      rw [bY k hk, bX k hk, hsame k]
    obtain ⟨e1, x1, y1, e2, y2, g1, g2, g3, _, g5, g6⟩ := New_same_bag e hreach.inv itX itY hreq
    exact ⟨itX, itY, e1, x1, y1, e2, y2, hX, hY, hreq, g1, g2, g3, g5, g6⟩

/-- Witness for C19: `Pos, Sprite` against `Sprite, Pos, Sprite` on the empty store. -/
theorem C19_require_idempotent_commutative_witness :
    (newEntities.Reachable ∧ PosKey < doNotMoveOrUseLastKeyForNumberOfKeys ∧
      SpriteKey < doNotMoveOrUseLastKeyForNumberOfKeys)
    ∧ ((newEntities.NewIter.RequireAll [PosKey, SpriteKey]).map Iter.requirements
        = (newEntities.NewIter.RequireAll [SpriteKey, PosKey, SpriteKey]).map Iter.requirements)
    ∧ ∃ itX itY, newEntities.NewIter.RequireAll [PosKey, SpriteKey] = .ok itX ∧
        newEntities.NewIter.RequireAll [SpriteKey, PosKey, SpriteKey] = .ok itY ∧
        itY.requirements = itX.requirements :=
  ⟨⟨Entities.Reachable.init, by decide, by decide⟩, by decide,
    match (C19_require_idempotent_commutative newEntities Entities.Reachable.init
        newEntities.NewIter PosKey SpriteKey (by decide) (by decide)).2
        [PosKey, SpriteKey] [SpriteKey, PosKey, SpriteKey] (by decide)
        (by intro k; simp only [List.mem_cons, List.mem_singleton, List.not_mem_nil, or_false]; tauto) with
    | ⟨itX, itY, _, _, _, _, _, h1, h2, h3, _⟩ => ⟨itX, itY, h1, h2, h3⟩⟩

end game
